import Mathlib

/-!
# Rebased Merkle trees (`rebased_merkle_tree.js`)

A shallow embedding of the merge and rebase functions of the script, and the
properties proved about them.

Conventions of the embedding.

* Numbers.  The script computes with JavaScript numbers, IEEE doubles.  The
  sizes and proof offsets of the script come out of `parseInt` and of sums, so
  they are doubles with an integer value, or an infinity, or `NaN`: `Dbl` holds
  the first two, and `NaN` is `none` of `Num = Option Dbl`.  A sum (`Num.add`) is
  the exact sum rounded to the nearest double, ties to the even significand, so
  it is the exact integer as long as that is below `2^53` and may differ from
  it above (`2^53 + 1` is `2^53`).  `parseInt` skips white space, reads a sign
  and a `0x` mark, and rounds the numeral it reads; `numToString` is
  `Number.prototype.toString`, with all digits below `2^53`, the shortest
  digits that give the double back above, and the exponent form from `10^21`
  on.  The division by `2^18`, `Math.ceil` and the multiplication by `2^18` of
  `round_to_chunk_size` are exact on every finite double of integer value.
* Byte buffers (`Uint8Array`) are lists of bytes, `byteLength` is `List.length`,
  `Arweave.utils.concatBuffers` is concatenation.  The byte ranges of a chunk
  object (`minByteRange`, `maxByteRange`) are positions in a buffer and the
  shift that `rebase_chunk` adds to them is the `byteLength` of a buffer; these
  are embedded as `Nat` with the exact sum, which is what the script computes
  as long as the positions stay below `2^53`, far above the length of any
  buffer that an engine allocates.
* Library functions of arweave-js (`Arweave.crypto.hash`, `intToBuffer`,
  `bufferTob64Url`) and the two values obtained from the network (anchor and
  price) are parameters, collected in `Env`.
* Chunk objects are mutated in place by `rebase_chunk` and the very same object
  is pushed into the merged transaction, so chunk objects live in a heap and a
  chunk list is a list of references into it.  Proof objects are never written
  after their creation and are embedded as values.
* The transaction that `rebase_proofs` fills (`merged_transaction`) is an object
  of its own: its `data` field and its two arrays are not the `data` field or
  the arrays of `left_transaction` or `right_transaction`, which are therefore
  passed as values.  The chunk objects inside the lists may be shared freely.
* A call of an `async` function either returns or throws (a rejected promise);
  both outcomes carry the state reached, see `Completion`.
* The requests that `post_chunks` sends to the node are embedded as the list of
  their bodies, in the order in which they are sent.
-/

namespace RebasedMerkleTree

/-! ## Numbers and strings -/

/-- A JavaScript number (an IEEE double) with an integer value, or an infinity:
`nonneg n` is `n` and `negative n` is `-(n + 1)`, the integers of absolute value
below `2^53`; `big neg m e` is `(2^52 + m) * 2^(e + 1)`, negated when `neg`, the
doubles of absolute value from `2^53` on, which have 53 significant bits;
`infinite` is `Infinity` or `-Infinity`.  Zero has no sign: `0` and `-0` are
equal under `===` and print alike. -/
inductive Dbl where
  | nonneg (n : Fin 9007199254740992)
  | negative (n : Fin 9007199254740991)
  | big (neg : Bool) (m : Fin 4503599627370496) (e : Fin 971)
  | infinite (neg : Bool)
  deriving DecidableEq, Repr

/-- A number of the script: `none` is `NaN`. -/
abbrev Num := Option Dbl

/-- The number is below zero. -/
def Dbl.isNeg : Dbl → Bool
  | .nonneg _ => false
  | .negative _ => true
  | .big neg _ _ => neg
  | .infinite neg => neg

/-- The absolute value of a number; `2^1024`, the least magnitude that is rounded
to an infinity, stands for that of an infinity. -/
def Dbl.mag : Dbl → Nat
  | .nonneg n => n.val
  | .negative n => n.val + 1
  | .big _ m e => (4503599627370496 + m.val) <<< (e.val + 1)
  | .infinite _ => 1 <<< 1024

/-- The largest `s` below 1024 with `2^53 ≤ n / 2^s`, found by bisection; `0` when
there is none. -/
def topShift (n : Nat) : Nat :=
  [512, 256, 128, 64, 32, 16, 8, 4, 2, 1].foldl
    (fun s b => if 9007199254740992 ≤ n >>> (s + b) then s + b else s) 0

/-- The double nearest to the integer of sign `neg` and absolute value `n`, ties
going to the even significand (IEEE round to nearest, ties to even): `n` itself
below `2^53`; from `2^1024 - 2^970` on an infinity; in between `n` is cut to its
53 leading bits `q`, rounded up by one when the rest `r` is more than half a
unit, or half a unit with `q` odd. -/
def Dbl.make (neg : Bool) (n : Nat) : Dbl :=
  if h : n < 9007199254740992 then
    if h0 : n = 0 then .nonneg 0
    else if neg then .negative ⟨n - 1, by omega⟩
    else .nonneg ⟨n, h⟩
  else if 1 <<< 1024 ≤ n then .infinite neg
  else
    let shift := topShift n + 1
    let q := n >>> shift
    let r := n % (1 <<< shift)
    let q1 := if 1 <<< shift < 2 * r ∨ (2 * r = 1 <<< shift ∧ q % 2 = 1) then q + 1 else q
    let q2 := if q1 = 9007199254740992 then 4503599627370496 else q1
    let shift2 := if q1 = 9007199254740992 then shift + 1 else shift
    if h2 : shift2 - 1 < 971 then
      .big neg ⟨(q2 - 4503599627370496) % 4503599627370496, Nat.mod_lt _ (by decide)⟩
        ⟨shift2 - 1, h2⟩
    else .infinite neg

/-- The double nearest to a non-negative integer; the integer itself below `2^53`. -/
def Dbl.ofNat (n : Nat) : Dbl := Dbl.make false n

instance (n : Nat) : OfNat Dbl n := ⟨Dbl.ofNat n⟩

instance : NatCast Dbl := ⟨Dbl.ofNat⟩

/-- The sum `a + b` of two doubles: the exact sum, rounded to the nearest double;
an infinity absorbs every finite number, and the sum of the two infinities is
`NaN`. -/
def Dbl.add (a b : Dbl) : Num :=
  match a, b with
  | .infinite x, .infinite y => if x = y then some a else none
  | .infinite _, _ => some a
  | _, .infinite _ => some b
  | _, _ =>
    if a.mag = 0 then some b
    else if b.mag = 0 then some a
    else if a.isNeg = b.isNeg then some (Dbl.make a.isNeg (a.mag + b.mag))
    else if b.mag ≤ a.mag then some (Dbl.make a.isNeg (a.mag - b.mag))
    else some (Dbl.make b.isNeg (b.mag - a.mag))

/-- The sum `a + b` of two numbers: `NaN` is absorbing. -/
def Num.add : Num → Num → Num
  | some a, some b => Dbl.add a b
  | _, _ => none

/-- Value of a decimal digit character, `none` for any other character. -/
def digitValue (c : Char) : Option Nat :=
  if 48 ≤ c.toNat ∧ c.toNat ≤ 57 then some (c.toNat - 48) else none

/-- Value of a hexadecimal digit character, `none` for any other character. -/
def hexDigitValue (c : Char) : Option Nat :=
  if 48 ≤ c.toNat ∧ c.toNat ≤ 57 then some (c.toNat - 48)
  else if 97 ≤ c.toNat ∧ c.toNat ≤ 102 then some (c.toNat - 87)
  else if 65 ≤ c.toNat ∧ c.toNat ≤ 70 then some (c.toNat - 55)
  else none

/-- Reads the leading run of decimal digits of `cs`, continuing from the value
`acc` of the digits already read. -/
def parseDigits : Nat → List Char → Nat
  | acc, [] => acc
  | acc, c :: cs =>
    match digitValue c with
    | some d => parseDigits (10 * acc + d) cs
    | none => acc

/-- Reads the leading run of hexadecimal digits of `cs`, continuing from the value
`acc` of the digits already read. -/
def parseHexDigits : Nat → List Char → Nat
  | acc, [] => acc
  | acc, c :: cs =>
    match hexDigitValue c with
    | some d => parseHexDigits (16 * acc + d) cs
    | none => acc

/-- White space and line terminators of ECMAScript, which `parseInt` skips at the
start of a string. -/
def isWhiteSpace (c : Char) : Bool :=
  decide (c.toNat ∈ [9, 10, 11, 12, 13, 32, 160, 5760, 8192, 8193, 8194, 8195, 8196, 8197,
    8198, 8199, 8200, 8201, 8202, 8232, 8233, 8239, 8287, 12288, 65279])

/-- Takes a leading `-` or `+` off: whether the sign is `-`, and the rest. -/
def stripSign : List Char → Bool × List Char
  | [] => (false, [])
  | c :: cs => if c = '-' then (true, cs) else if c = '+' then (false, cs) else (false, c :: cs)

/-- Takes a leading `0x` or `0X` off: whether there was one, and the rest. -/
def stripHexMark : List Char → Bool × List Char
  | c :: d :: cs => if c = '0' ∧ (d = 'x' ∨ d = 'X') then (true, cs) else (false, c :: d :: cs)
  | cs => (false, cs)

/-- The call `parseInt(s)` with no radix: leading white space is skipped, then a
sign and then a `0x` or `0X` are taken off; the result is the value of the
leading run of hexadecimal digits after `0x`, of decimal digits otherwise, with
the sign, rounded to the nearest double, and `NaN` when that run is empty. -/
def parseInt (s : String) : Num :=
  let signed := stripSign (s.data.dropWhile isWhiteSpace)
  let marked := stripHexMark signed.2
  match marked.2 with
  | [] => none
  | c :: cs =>
    if marked.1 then
      match hexDigitValue c with
      | some d => some (Dbl.make signed.1 (parseHexDigits d cs))
      | none => none
    else
      match digitValue c with
      | some d => some (Dbl.make signed.1 (parseDigits d cs))
      | none => none

/-- With `x` a double of `len` decimal digits and `k` the number of digits tried: the
two multiples of `10^(len - k)` around `x` are the decimals of `k` digits next
to `x`; the first `k` at which one of them is rounded to `x` gives the result,
the nearer one if both are, the one with the even last digit if both are
equally near.  Seventeen digits always suffice. -/
def shortestFrom (x len : Nat) : Nat → Nat → Nat
  | 0, _ => x
  | fuel + 1, k =>
    let p := 10 ^ (len - k)
    let lo := x / p * p
    let hi := lo + p
    let okLo := decide (Dbl.make false lo = Dbl.make false x)
    let okHi := decide (Dbl.make false hi = Dbl.make false x)
    if okLo ∧ okHi then
      if x - lo < hi - x then lo
      else if hi - x < x - lo then hi
      else if (lo / p) % 2 = 0 then lo else hi
    else if okLo then lo
    else if okHi then hi
    else shortestFrom x len fuel (k + 1)

/-- The decimal with the fewest significant digits that is rounded to the double `x`. -/
def shortest (x : Nat) : Nat := shortestFrom x (Nat.repr x).length 17 1

/-- The digits without the zeros at their end. -/
def stripZeros (cs : List Char) : List Char :=
  (cs.reverse.dropWhile (· = '0')).reverse

/-- The call `x.toString()` for the absolute value `x` of a finite double: below
`2^53` the decimal numeral of `x`; above, the digits of the shortest decimal
that is rounded to `x`, filled up with zeros, and from `10^21` on in exponent
form (`1e+21`, `1.1805916207174113e+21`). -/
def magToString (x : Nat) : String :=
  if x < 9007199254740992 then Nat.repr x
  else
    let ds := (Nat.repr (shortest x)).data
    if ds.length ≤ 21 then String.mk ds
    else
      match stripZeros ds with
      | [] => String.mk ds
      | [d] => String.mk (d :: 'e' :: '+' :: (Nat.repr (ds.length - 1)).data)
      | d :: rest =>
        String.mk (d :: '.' :: rest ++ 'e' :: '+' :: (Nat.repr (ds.length - 1)).data)

/-- The call `n.toString()` of a number. -/
def numToString : Num → String
  | none => "NaN"
  | some (.infinite neg) => if neg then "-Infinity" else "Infinity"
  | some x => if x.isNeg then "-" ++ magToString x.mag else magToString x.mag

/-- A string is a decimal numeral: not empty, and all characters are digits. -/
def isDecimal (s : String) : Prop :=
  s.data ≠ [] ∧ ∀ c ∈ s.data, (digitValue c).isSome

instance (s : String) : Decidable (isDecimal s) := by
  unfold isDecimal; infer_instance

/-- Value of a decimal numeral, most significant digit first. -/
def decimalValue (s : String) : Nat :=
  s.data.foldl (fun acc c => 10 * acc + (digitValue c).getD 0) 0

/-! ## Constants -/

/-- Line 33: `MAX_CHUNK_SIZE = 256 * 1024`. -/
def MAX_CHUNK_SIZE : Nat := 256 * 1024

/-- Line 34: `HASH_SIZE = 32`. -/
def HASH_SIZE : Nat := 32

abbrev Byte := Fin 256
abbrev Bytes := List Byte

/-- Line 35: `REBASE_MARK = new Uint8Array(HASH_SIZE)`, a buffer of `HASH_SIZE` zero bytes. -/
def REBASE_MARK : Bytes := List.replicate HASH_SIZE 0

/-- Lines 51-53: `Math.ceil(size / MAX_CHUNK_SIZE) * MAX_CHUNK_SIZE` on a non-negative
integer; the ceiling of the quotient is `(size + (MAX_CHUNK_SIZE - 1)) / MAX_CHUNK_SIZE`
in integer division (`round_to_chunk_size_eq_ceil`). -/
def round_to_chunk_size (size : Nat) : Nat :=
  (size + (MAX_CHUNK_SIZE - 1)) / MAX_CHUNK_SIZE * MAX_CHUNK_SIZE

/-- Lines 51-53 on a number of the script: `NaN` stays `NaN` and an infinity stays
that infinity; on a finite number the quotient by `2^18`, its ceiling and the
product by `2^18` are exact, so the result is `round_to_chunk_size` of a
non-negative integer and, for a negative integer, the negated multiple of
`2^18` below its absolute value. -/
def roundNum : Num → Num
  | none => none
  | some (.infinite neg) => some (.infinite neg)
  | some x =>
    if x.isNeg then some (Dbl.make true (x.mag / MAX_CHUNK_SIZE * MAX_CHUNK_SIZE))
    else some (Dbl.make false (round_to_chunk_size x.mag))

/-! ## Transactions -/

/-- A chunk object of arweave-js: the hash of the chunk's bytes and its byte range
in the `data` buffer of its transaction. -/
structure Chunk where
  dataHash : Bytes
  minByteRange : Nat
  maxByteRange : Nat
  deriving DecidableEq, Repr

/-- A reference to a chunk object. -/
abbrev ChunkRef := Nat

/-- The chunk objects, by reference. -/
abbrev Heap := ChunkRef → Chunk

/-- A proof object `{proof, offset}`. -/
structure Proof where
  proof : Bytes
  offset : Num
  deriving DecidableEq, Repr

/-- The `chunks` field of a transaction: `{data_root, chunks, proofs}`. -/
structure Chunks where
  data_root : Bytes
  chunks : List ChunkRef
  proofs : List Proof
  deriving DecidableEq, Repr

/-- The fields of an arweave-js `Transaction` that the script reads or writes. -/
structure Transaction where
  last_tx : String
  reward : String
  data_size : String
  data_root : String
  data : Bytes
  chunks : Chunks
  deriving DecidableEq, Repr

/-- What the script takes from arweave-js and from the network. -/
structure Env where
  /-- The function `Arweave.crypto.hash`. -/
  hash : Bytes → Bytes
  /-- The function `intToBuffer` of `arweave/node/lib/merkle`. -/
  intToBuffer : Num → Bytes
  /-- The function `Arweave.utils.bufferTob64Url`. -/
  bufferTob64Url : Bytes → String
  /-- The result of `arweave.transactions.getTransactionAnchor()`. -/
  anchor : String
  /-- The result of `arweave.transactions.getPrice(size)`. -/
  price : Num → String

/-- The function `Arweave.utils.concatBuffers`. -/
def concatBuffers : List Bytes → Bytes
  | [] => []
  | b :: bs => b ++ concatBuffers bs

/-- How a call ends: it returns, or it throws; either way in some state. -/
inductive Completion (σ : Type) where
  | returned (s : σ)
  | threw (s : σ)

/-- The state a call ended in. -/
def Completion.state {σ : Type} : Completion σ → σ
  | .returned s => s
  | .threw s => s

/-- The call returned. -/
def Completion.isReturned {σ : Type} : Completion σ → Bool
  | .returned _ => true
  | .threw _ => false

/-- The mutable state of a call of `rebase_proofs`: the chunk objects and the
transaction being filled. -/
structure State where
  heap : Heap
  merged : Transaction

/-! ## The three steps of the script -/

/-- Lines 57-85. -/
def merge_and_rebase_merkle_trees (env : Env)
    (left_transaction right_transaction : Transaction) : Transaction :=
  let left_size := parseInt left_transaction.data_size
  let right_size := parseInt right_transaction.data_size
  let rounded_left_size := roundNum left_size
  let tree_size := Num.add rounded_left_size right_size
  let data_root := env.hash (concatBuffers [
    env.hash left_transaction.chunks.data_root,
    env.hash right_transaction.chunks.data_root,
    env.hash (env.intToBuffer rounded_left_size)])
  { last_tx := env.anchor
    reward := env.price tree_size
    data_size := numToString tree_size
    data_root := env.bufferTob64Url data_root
    data := []
    chunks := { data_root := data_root, chunks := [], proofs := [] } }

/-- Lines 88-107: pushes the rebased proof onto `merged_transaction.chunks.proofs`. -/
def rebase_proof (env : Env) (merged_transaction : Transaction)
    (left_data_root right_data_root : Bytes) (left_size left_bound_shift : Num)
    (proof : Proof) : Transaction :=
  let rebased_proof := concatBuffers [
    REBASE_MARK,
    left_data_root,
    right_data_root,
    env.intToBuffer (roundNum left_size),
    proof.proof]
  { merged_transaction with
    chunks := { merged_transaction.chunks with
      proofs := merged_transaction.chunks.proofs ++
        [{ proof := rebased_proof, offset := Num.add left_bound_shift proof.offset }] } }

/-- Lines 113-117.  The argument `chunk` is what the caller read from the chunk
array: a chunk object, or `undefined` (`none`) past the end of the array, on
which reading `chunk.minByteRange` throws a `TypeError`.  The two assignments
write to the chunk object itself, and that object is pushed. -/
def rebase_chunk (s : State) (data_buffer_shift : Nat) (chunk : Option ChunkRef) :
    Completion State :=
  match chunk with
  | none => .threw s
  | some c =>
    let heap1 := Function.update s.heap c
      { s.heap c with minByteRange := data_buffer_shift + (s.heap c).minByteRange }
    let heap2 := Function.update heap1 c
      { heap1 c with maxByteRange := data_buffer_shift + (heap1 c).maxByteRange }
    .returned
      { heap := heap2
        merged := { s.merged with
          chunks := { s.merged.chunks with chunks := s.merged.chunks.chunks ++ [c] } } }

/-- One of the two `for` loops of `rebase_proofs` (lines 128-136 and 137-145), from
iteration `i` on: `proofs` holds the elements `i, i+1, ...` of the proof array
over which the loop runs, `chunks` is the whole chunk array of the same
transaction.  The loops differ in the two shifts only. -/
def rebase_loop (env : Env) (left_data_root right_data_root : Bytes) (left_size : Num)
    (data_buffer_shift : Nat) (left_bound_shift : Num) (chunks : List ChunkRef) :
    Nat → List Proof → State → Completion State
  | _, [], s => .returned s
  | i, proof :: proofs, s =>
    match rebase_chunk s data_buffer_shift chunks[i]? with
    | .threw s1 => .threw s1
    | .returned s1 =>
      let merged1 := rebase_proof env s1.merged left_data_root right_data_root
        left_size left_bound_shift proof
      rebase_loop env left_data_root right_data_root left_size data_buffer_shift
        left_bound_shift chunks (i + 1) proofs { s1 with merged := merged1 }

/-- Lines 120-146. -/
def rebase_proofs (env : Env) (s : State) (left_transaction right_transaction : Transaction) :
    Completion State :=
  let s0 : State := { s with merged := { s.merged with
    data := concatBuffers [left_transaction.data, right_transaction.data] } }
  let left_data_root := left_transaction.chunks.data_root
  let right_data_root := right_transaction.chunks.data_root
  let left_size := parseInt left_transaction.data_size
  match rebase_loop env left_data_root right_data_root left_size 0 (some 0)
      left_transaction.chunks.chunks 0 left_transaction.chunks.proofs s0 with
  | .threw s1 => .threw s1
  | .returned s1 =>
    rebase_loop env left_data_root right_data_root left_size
      left_transaction.data.length (roundNum left_size)
      right_transaction.chunks.chunks 0 right_transaction.chunks.proofs s1

/-! ## Posting the chunks -/

/-- The request body that `post_chunks` posts for one chunk (lines 156-162). -/
structure Payload where
  data_root : String
  data_size : String
  data_path : String
  offset : String
  chunk : String
  deriving DecidableEq, Repr

/-- The call `data.slice(start, stop)` of a `Uint8Array` on non-negative integers:
the bytes from index `start` up to, not including, index `stop`, both cut off at
the end of the buffer. -/
def slice (data : Bytes) (start stop : Nat) : Bytes :=
  (data.take stop).drop start

/-- Line 155: the bytes `chunk_data` that `post_chunks` sends for a chunk object. -/
def chunk_data (heap : Heap) (transaction : Transaction) (chunk : ChunkRef) : Bytes :=
  slice transaction.data (heap chunk).minByteRange (heap chunk).maxByteRange

/-- The `for` loop of `post_chunks` (lines 151-165) from iteration `i` on: `chunks`
holds the elements `i, i+1, ...` of the chunk array, `posted` the request bodies
posted so far.  Reading `.proof` of `transaction.chunks.proofs[i]` throws when
the proof array has no element `i`. -/
def post_chunks_loop (env : Env) (heap : Heap) (transaction : Transaction) :
    Nat → List ChunkRef → List Payload → Completion (List Payload)
  | _, [], posted => .returned posted
  | i, chunk :: chunks, posted =>
    match transaction.chunks.proofs[i]? with
    | none => .threw posted
    | some p =>
      let payload : Payload :=
        { data_root := transaction.data_root
          data_size := transaction.data_size
          data_path := env.bufferTob64Url p.proof
          offset := numToString p.offset
          chunk := env.bufferTob64Url (chunk_data heap transaction chunk) }
      post_chunks_loop env heap transaction (i + 1) chunks (posted ++ [payload])

/-- Lines 150-166: the request bodies posted to the node, in order. -/
def post_chunks (env : Env) (heap : Heap) (transaction : Transaction) :
    Completion (List Payload) :=
  post_chunks_loop env heap transaction 0 transaction.chunks.chunks []

/-! ## Notions used in the statements -/

/-- The heap after the two assignments of `rebase_chunk` on the chunk object `c`. -/
def shiftChunk (shift : Nat) (h : Heap) (c : ChunkRef) : Heap :=
  Function.update h c
    { h c with
      minByteRange := shift + (h c).minByteRange
      maxByteRange := shift + (h c).maxByteRange }

/-- The proof object that `rebase_proof` pushes for `proof`. -/
def rebasedProof (env : Env) (left_data_root right_data_root : Bytes)
    (left_size left_bound_shift : Num) (proof : Proof) : Proof :=
  { proof := REBASE_MARK ++ (left_data_root ++ (right_data_root ++
      (env.intToBuffer (roundNum left_size) ++ proof.proof)))
    offset := Num.add left_bound_shift proof.offset }

/-- The state after a loop of `rebase_proofs` has handled the chunk objects `cs`
and the proofs `ps`. -/
def loopResult (env : Env) (left_data_root right_data_root : Bytes) (left_size : Num)
    (data_buffer_shift : Nat) (left_bound_shift : Num)
    (cs : List ChunkRef) (ps : List Proof) (s : State) : State :=
  { heap := cs.foldl (shiftChunk data_buffer_shift) s.heap
    merged := { s.merged with
      chunks := { s.merged.chunks with
        chunks := s.merged.chunks.chunks ++ cs
        proofs := s.merged.chunks.proofs ++
          ps.map (rebasedProof env left_data_root right_data_root left_size
            left_bound_shift) } } }

/-- The byte range of a chunk object. -/
def rangeOf (h : Heap) (c : ChunkRef) : Nat × Nat :=
  ((h c).minByteRange, (h c).maxByteRange)

/-- The state in which `rebase_proofs` returns when neither chunk array is
shorter than its proof array. -/
def rebaseResult (env : Env) (s : State) (left right : Transaction) : State :=
  { heap := (right.chunks.chunks.take right.chunks.proofs.length).foldl
      (shiftChunk left.data.length) s.heap
    merged := { s.merged with
      data := left.data ++ right.data
      chunks := { s.merged.chunks with
        chunks := s.merged.chunks.chunks ++
          (left.chunks.chunks.take left.chunks.proofs.length ++
            right.chunks.chunks.take right.chunks.proofs.length)
        proofs := s.merged.chunks.proofs ++
          (left.chunks.proofs.map (rebasedProof env left.chunks.data_root
              right.chunks.data_root (parseInt left.data_size) (some 0)) ++
            right.chunks.proofs.map (rebasedProof env left.chunks.data_root
              right.chunks.data_root (parseInt left.data_size)
              (roundNum (parseInt left.data_size)))) } } }

/-- The Chunk invariant on a list of byte ranges: the ranges tile the bytes from
`start` to `stop` in order, each one starting where the previous one ends, with
`min ≤ max`; an empty list tiles an empty stretch only.  The chunks of a tree
satisfy it from `0` to the length of the data buffer. -/
def Contiguous : Nat → List (Nat × Nat) → Nat → Prop
  | start, [], stop => start = stop
  | start, r :: rest, stop => r.1 = start ∧ r.1 ≤ r.2 ∧ Contiguous r.2 rest stop

instance Contiguous.decide : ∀ (start : Nat) (rs : List (Nat × Nat)) (stop : Nat),
    Decidable (Contiguous start rs stop)
  | start, [], stop => inferInstanceAs (Decidable (start = stop))
  | start, r :: rest, stop =>
    have := Contiguous.decide r.2 rest stop
    inferInstanceAs (Decidable (r.1 = start ∧ r.1 ≤ r.2 ∧ Contiguous r.2 rest stop))

/-- The byte ranges of the chunk objects of a chunk list. -/
def rangesOf (h : Heap) (cs : List ChunkRef) : List (Nat × Nat) :=
  cs.map (rangeOf h)

/-- The request body that `post_chunks` builds for a chunk object and its proof. -/
def payloadOf (env : Env) (heap : Heap) (transaction : Transaction)
    (chunk : ChunkRef) (p : Proof) : Payload :=
  { data_root := transaction.data_root
    data_size := transaction.data_size
    data_path := env.bufferTob64Url p.proof
    offset := numToString p.offset
    chunk := env.bufferTob64Url (chunk_data heap transaction chunk) }

/-- How `rebase_proofs` ends, whatever the lengths of the lists: the left loop
handles the proofs of left up to the first one without a chunk, where it throws;
if it does not throw, the right loop does the same with right. -/
def rebaseOutcome (env : Env) (s : State) (left right : Transaction) : Completion State :=
  let s0 : State := { s with merged := { s.merged with data := left.data ++ right.data } }
  let s1 := loopResult env left.chunks.data_root right.chunks.data_root
    (parseInt left.data_size) 0 (some 0)
    (left.chunks.chunks.take left.chunks.proofs.length)
    (left.chunks.proofs.take left.chunks.chunks.length) s0
  if left.chunks.proofs.length ≤ left.chunks.chunks.length then
    let s2 := loopResult env left.chunks.data_root right.chunks.data_root
      (parseInt left.data_size) left.data.length (roundNum (parseInt left.data_size))
      (right.chunks.chunks.take right.chunks.proofs.length)
      (right.chunks.proofs.take right.chunks.chunks.length) s1
    if right.chunks.proofs.length ≤ right.chunks.chunks.length then .returned s2
    else .threw s2
  else .threw s1

/-! ## Example inputs -/

/-- Stand-ins for the library functions and the network, for the examples. -/
def exampleEnv : Env :=
  { hash := fun b => 0 :: b
    intToBuffer := fun n => [Fin.ofNat ((n.map Dbl.mag).getD 0)]
    bufferTob64Url := fun b => String.mk (b.map (fun x => Char.ofNat (65 + x.val % 26)))
    anchor := "anchor"
    price := fun n => numToString n }

/-- Chunk objects of the examples: `0` and `1` tile a buffer of 5 bytes, `2` a
buffer of 4 bytes, `3` a buffer of 3 bytes, `4` and `5` each a buffer of 1 byte. -/
def exampleHeap : Heap := fun c =>
  match c with
  | 0 => { dataHash := [10], minByteRange := 0, maxByteRange := 3 }
  | 1 => { dataHash := [11], minByteRange := 3, maxByteRange := 5 }
  | 2 => { dataHash := [12], minByteRange := 0, maxByteRange := 4 }
  | 3 => { dataHash := [13], minByteRange := 0, maxByteRange := 3 }
  | 4 => { dataHash := [14], minByteRange := 0, maxByteRange := 1 }
  | 5 => { dataHash := [15], minByteRange := 0, maxByteRange := 1 }
  | _ => { dataHash := [], minByteRange := 0, maxByteRange := 0 }

/-- A transaction of 5 bytes in two chunks. -/
def txA : Transaction :=
  { last_tx := "", reward := "", data_size := "5", data_root := "A"
    data := [1, 2, 3, 4, 5]
    chunks := { data_root := [1], chunks := [0, 1],
                proofs := [{ proof := [20], offset := some 2 }, { proof := [21], offset := some 4 }] } }

/-- A transaction of 4 bytes in one chunk. -/
def txB : Transaction :=
  { last_tx := "", reward := "", data_size := "4", data_root := "B"
    data := [6, 7, 8, 9]
    chunks := { data_root := [2], chunks := [2],
                proofs := [{ proof := [22], offset := some 3 }] } }

/-- A transaction of 3 bytes in one chunk. -/
def txC : Transaction :=
  { last_tx := "", reward := "", data_size := "3", data_root := "C"
    data := [10, 11, 12]
    chunks := { data_root := [3], chunks := [3],
                proofs := [{ proof := [23], offset := some 2 }] } }

/-- A transaction with the declared size of the script's first file, without its bytes. -/
def tx474000 : Transaction :=
  { last_tx := "", reward := "", data_size := "474000", data_root := ""
    data := [], chunks := { data_root := [4], chunks := [], proofs := [] } }

/-- A transaction with the declared size of the script's second file, without its bytes. -/
def tx120000 : Transaction :=
  { last_tx := "", reward := "", data_size := "120000", data_root := ""
    data := [], chunks := { data_root := [5], chunks := [], proofs := [] } }

/-- The state after the first merge of the examples: `txA` and `txB` merged and rebased. -/
def stateAB : State :=
  (rebase_proofs exampleEnv
    { heap := exampleHeap, merged := merge_and_rebase_merkle_trees exampleEnv txA txB }
    txA txB).state

/-- A merged transaction that was not made from `txA` and `txB`. -/
def strangerTx : Transaction :=
  { last_tx := "", reward := "", data_size := "0", data_root := "Z"
    data := [], chunks := { data_root := [9], chunks := [], proofs := [] } }

/-- A transaction with the same fields as `txB` and the declared size 7. -/
def txB7 : Transaction := { txB with data_size := "7", data := [6, 7, 8, 9, 0, 0, 0] }

/-- The transaction `txA` with its second proof missing: two chunks, one proof. -/
def txFewProofs : Transaction :=
  { txA with chunks := { txA.chunks with proofs := [{ proof := [20], offset := some 2 }] } }

/-- The transaction `txA` with its second chunk missing: one chunk, two proofs. -/
def txFewChunks : Transaction :=
  { txA with chunks := { txA.chunks with chunks := [0] } }

/-- The state after `txB` has been merged with itself and rebased. -/
def stateBB : State :=
  (rebase_proofs exampleEnv
    { heap := exampleHeap, merged := merge_and_rebase_merkle_trees exampleEnv txB txB }
    txB txB).state

/-- The chunk objects of the script's three transactions: files of 474000, 120000
and 524288 bytes, cut at 262144 bytes. -/
def scriptHeap : Heap := fun c =>
  match c with
  | 10 => { dataHash := [10], minByteRange := 0, maxByteRange := 262144 }
  | 11 => { dataHash := [11], minByteRange := 262144, maxByteRange := 474000 }
  | 12 => { dataHash := [12], minByteRange := 0, maxByteRange := 120000 }
  | 13 => { dataHash := [13], minByteRange := 0, maxByteRange := 262144 }
  | 14 => { dataHash := [14], minByteRange := 262144, maxByteRange := 524288 }
  | _ => { dataHash := [], minByteRange := 0, maxByteRange := 0 }

/-- The script's `transaction1`: 474000 bytes in two chunks. -/
def transaction1 : Transaction :=
  { last_tx := "", reward := "", data_size := "474000", data_root := "t1"
    data := List.replicate 474000 1
    chunks := { data_root := [1], chunks := [10, 11],
                proofs := [{ proof := [30], offset := some 262143 },
                           { proof := [31], offset := some 473999 }] } }

/-- The script's `transaction2`: 120000 bytes in one chunk. -/
def transaction2 : Transaction :=
  { last_tx := "", reward := "", data_size := "120000", data_root := "t2"
    data := List.replicate 120000 2
    chunks := { data_root := [2], chunks := [12],
                proofs := [{ proof := [32], offset := some 119999 }] } }

/-- The script's `transaction3`: 524288 bytes in two chunks. -/
def transaction3 : Transaction :=
  { last_tx := "", reward := "", data_size := "524288", data_root := "t3"
    data := List.replicate 524288 3
    chunks := { data_root := [3], chunks := [13, 14],
                proofs := [{ proof := [33], offset := some 262143 },
                           { proof := [34], offset := some 524287 }] } }

/-- Another network answer than `exampleEnv`: the same library functions, another
anchor and another price. -/
def otherEnv : Env := { exampleEnv with anchor := "later", price := fun _ => "1" }

/-- A transaction with the declared size `2^53 - 1`, the largest safe integer,
without its bytes and without leaves. -/
def txMaxSafe : Transaction :=
  { last_tx := "", reward := "", data_size := "9007199254740991", data_root := ""
    data := [], chunks := { data_root := [6], chunks := [], proofs := [] } }

/-- A transaction of one byte in one chunk. -/
def txOne : Transaction :=
  { last_tx := "", reward := "", data_size := "1", data_root := ""
    data := [7]
    chunks := { data_root := [7], chunks := [4], proofs := [{ proof := [24], offset := some 0 }] } }

/-- The transaction `txOne` with the proof offset `2^71` in place of `0`. -/
def txOneFar : Transaction :=
  { txOne with chunks := { txOne.chunks with
      proofs := [{ proof := [24], offset := some 2361183241434822606848 }] } }

/-- Another transaction of one byte in one chunk, with a chunk object of its own. -/
def txOther : Transaction :=
  { last_tx := "", reward := "", data_size := "1", data_root := ""
    data := [8]
    chunks := { data_root := [8], chunks := [5], proofs := [{ proof := [25], offset := some 0 }] } }

/-- The state after `txMaxSafe` and `txOne` have been merged and rebased. -/
def stateMaxOne : State :=
  (rebase_proofs exampleEnv
    { heap := exampleHeap, merged := merge_and_rebase_merkle_trees exampleEnv txMaxSafe txOne }
    txMaxSafe txOne).state

/-- The state after `txOne` and `txOther` have been merged and rebased. -/
def stateOneOther : State :=
  (rebase_proofs exampleEnv
    { heap := exampleHeap, merged := merge_and_rebase_merkle_trees exampleEnv txOne txOther }
    txOne txOther).state

/-- The state after `txC` and `txB` have been merged and rebased. -/
def stateCB : State :=
  (rebase_proofs exampleEnv
    { heap := exampleHeap, merged := merge_and_rebase_merkle_trees exampleEnv txC txB }
    txC txB).state

/-- The state after `txB` and `txOneFar` have been merged and rebased. -/
def stateBFar : State :=
  (rebase_proofs exampleEnv
    { heap := exampleHeap, merged := merge_and_rebase_merkle_trees exampleEnv txB txOneFar }
    txB txOneFar).state

/-! ## Basic facts -/

theorem shiftChunk_zero (h : Heap) (c : ChunkRef) : shiftChunk 0 h c = h := by
  unfold shiftChunk
  simp

theorem foldl_shiftChunk_zero (cs : List ChunkRef) (h : Heap) :
    cs.foldl (shiftChunk 0) h = h := by
  induction cs generalizing h with
  | nil => rfl
  | cons c cs ih => simp [List.foldl_cons, shiftChunk_zero, ih]

theorem rebase_chunk_some (s : State) (shift : Nat) (c : ChunkRef) :
    rebase_chunk s shift (some c) = .returned
      { heap := shiftChunk shift s.heap c
        merged := { s.merged with
          chunks := { s.merged.chunks with chunks := s.merged.chunks.chunks ++ [c] } } } := by
  simp [rebase_chunk, shiftChunk]

theorem rebase_proof_eq (env : Env) (m : Transaction) (ldr rdr : Bytes)
    (left_size shift : Num) (p : Proof) :
    rebase_proof env m ldr rdr left_size shift p =
      { m with chunks := { m.chunks with
          proofs := m.chunks.proofs ++ [rebasedProof env ldr rdr left_size shift p] } } := by
  simp [rebase_proof, rebasedProof, concatBuffers]

theorem rebase_loop_returned (env : Env) (ldr rdr : Bytes) (left_size : Num)
    (dshift : Nat) (pshift : Num) (chunks : List ChunkRef) (ps : List Proof) :
    ∀ (i : Nat) (s : State), i + ps.length ≤ chunks.length →
      rebase_loop env ldr rdr left_size dshift pshift chunks i ps s =
        .returned (loopResult env ldr rdr left_size dshift pshift
          ((chunks.drop i).take ps.length) ps s) := by
  induction ps with
  | nil =>
    intro i s _
    simp [rebase_loop, loopResult]
  | cons p ps ih =>
    intro i s h
    have hi : i < chunks.length := by simp at h; omega
    have hd : (chunks.drop i).take (ps.length + 1)
        = chunks[i] :: (chunks.drop (i + 1)).take ps.length := by
      rw [List.drop_eq_getElem_cons hi, List.take_succ_cons]
    have h' : i + 1 + ps.length ≤ chunks.length := by simp at h; omega
    rw [rebase_loop, List.getElem?_eq_getElem hi, rebase_chunk_some]
    simp only [rebase_proof_eq]
    rw [ih (i + 1) _ h']
    simp [loopResult, hd, List.length_cons]

/-! ## Decimal numerals -/

theorem digitValue_digitChar (d : Nat) (h : d < 10) : digitValue (Nat.digitChar d) = some d := by
  interval_cases d <;> decide

theorem parseDigits_eq_foldl (cs : List Char) (h : ∀ c ∈ cs, (digitValue c).isSome) (acc : Nat) :
    parseDigits acc cs = cs.foldl (fun acc c => 10 * acc + (digitValue c).getD 0) acc := by
  induction cs generalizing acc with
  | nil => rfl
  | cons c cs ih =>
    have hc := h c (List.mem_cons_self _ _)
    obtain ⟨d, hd⟩ := Option.isSome_iff_exists.mp hc
    have ih' := ih (fun x hx => h x (List.mem_cons_of_mem _ hx))
    simp [parseDigits, hd, ih']

theorem digitValue_bounds (c : Char) (h : (digitValue c).isSome) :
    48 ≤ c.toNat ∧ c.toNat ≤ 57 := by
  unfold digitValue at h
  by_cases hc : 48 ≤ c.toNat ∧ c.toNat ≤ 57
  · exact hc
  · simp [hc] at h

theorem isWhiteSpace_digit (c : Char) (h : (digitValue c).isSome) : isWhiteSpace c = false := by
  have hb := digitValue_bounds c h
  unfold isWhiteSpace
  simp only [List.mem_cons, List.mem_singleton, List.not_mem_nil, or_false,
    decide_eq_false_iff_not]
  omega

theorem ne_of_digit (c d : Char) (h : (digitValue c).isSome)
    (hd : d.toNat < 48 ∨ 57 < d.toNat) : c ≠ d := by
  have hb := digitValue_bounds c h
  intro hcd
  subst hcd
  omega

theorem stripSign_digit (c : Char) (cs : List Char) (h : (digitValue c).isSome) :
    stripSign (c :: cs) = (false, c :: cs) := by
  have h1 : c ≠ '-' := ne_of_digit c '-' h (by decide)
  have h2 : c ≠ '+' := ne_of_digit c '+' h (by decide)
  simp [stripSign, h1, h2]

theorem stripHexMark_digits (cs : List Char) (h : ∀ c ∈ cs, (digitValue c).isSome) :
    stripHexMark cs = (false, cs) := by
  match cs, h with
  | [], _ => rfl
  | [_], _ => rfl
  | c :: d :: r, h =>
    have hd : (digitValue d).isSome := h d (by simp)
    have h1 : d ≠ 'x' := ne_of_digit d 'x' hd (by decide)
    have h2 : d ≠ 'X' := ne_of_digit d 'X' hd (by decide)
    simp [stripHexMark, h1, h2]

theorem parseInt_of_isDecimal (s : String) (h : isDecimal s) :
    parseInt s = some (Dbl.ofNat (decimalValue s)) := by
  obtain ⟨hne, hall⟩ := h
  unfold parseInt decimalValue
  cases hs : s.data with
  | nil => exact absurd hs hne
  | cons c cs =>
    rw [hs] at hall
    have hc := hall c (List.mem_cons_self _ _)
    obtain ⟨d, hd⟩ := Option.isSome_iff_exists.mp hc
    have hfold := parseDigits_eq_foldl cs (fun x hx => hall x (List.mem_cons_of_mem _ hx)) d
    have hdrop : (c :: cs).dropWhile isWhiteSpace = c :: cs := by
      simp [List.dropWhile, isWhiteSpace_digit c hc]
    simp only [hdrop, stripSign_digit c cs hc, stripHexMark_digits (c :: cs) hall]
    simp [hd, hfold, Dbl.ofNat]

theorem toDigitsCore_append (fuel : Nat) : ∀ (n : Nat) (ds : List Char),
    Nat.toDigitsCore 10 fuel n ds = Nat.toDigitsCore 10 fuel n [] ++ ds := by
  induction fuel with
  | zero => intro n ds; simp [Nat.toDigitsCore]
  | succ f ih =>
    intro n ds
    simp only [Nat.toDigitsCore]
    split
    · simp
    · rw [ih (n / 10) (Nat.digitChar (n % 10) :: ds), ih (n / 10) [Nat.digitChar (n % 10)]]
      simp

theorem toDigitsCore_spec (fuel : Nat) : ∀ n : Nat, n < fuel →
    Nat.toDigitsCore 10 fuel n [] ≠ [] ∧
    (∀ c ∈ Nat.toDigitsCore 10 fuel n [], (digitValue c).isSome) ∧
    (Nat.toDigitsCore 10 fuel n []).foldl (fun acc c => 10 * acc + (digitValue c).getD 0) 0 = n := by
  induction fuel with
  | zero => intro n h; omega
  | succ f ih =>
    intro n h
    have hd := digitValue_digitChar (n % 10) (Nat.mod_lt _ (by decide))
    simp only [Nat.toDigitsCore]
    split
    · rename_i h0
      refine ⟨by simp, ?_, ?_⟩
      · intro c hc
        simp at hc
        simp [hc, hd]
      · simp [hd]
        omega
    · rename_i h0
      have hlt : n / 10 < f := by omega
      obtain ⟨h1, h2, h3⟩ := ih (n / 10) hlt
      rw [toDigitsCore_append]
      refine ⟨by simp [h1], ?_, ?_⟩
      · intro c hc
        rw [List.mem_append] at hc
        rcases hc with hc | hc
        · exact h2 c hc
        · simp at hc
          simp [hc, hd]
      · rw [List.foldl_append, h3]
        simp [hd]
        omega

theorem repr_isDecimal (n : Nat) : isDecimal (Nat.repr n) ∧ decimalValue (Nat.repr n) = n := by
  obtain ⟨h1, h2, h3⟩ := toDigitsCore_spec (n + 1) n (Nat.lt_succ_self n)
  unfold isDecimal decimalValue
  simp only [Nat.repr, Nat.toDigits, List.asString]
  exact ⟨⟨h1, h2⟩, h3⟩

/-! ## Arithmetic on safe integers -/

theorem Dbl.ofNat_eq (n : Nat) (h : n < 9007199254740992) : Dbl.ofNat n = .nonneg ⟨n, h⟩ := by
  unfold Dbl.ofNat Dbl.make
  by_cases h0 : n = 0
  · subst h0
    simp
  · simp [h, h0]

theorem numToString_ofNat (n : Nat) (h : n < 9007199254740992) :
    numToString (some (Dbl.ofNat n)) = Nat.repr n := by
  rw [Dbl.ofNat_eq n h]
  simp [numToString, Dbl.isNeg, Dbl.mag, magToString, h]

theorem parseInt_numToString (n : Nat) (h : n < 9007199254740992) :
    parseInt (numToString (some (Dbl.ofNat n))) = some (Dbl.ofNat n) := by
  obtain ⟨h1, h2⟩ := repr_isDecimal n
  rw [numToString_ofNat n h, parseInt_of_isDecimal _ h1, h2]

theorem Num.add_ofNat (a b : Nat) (h : a + b < 9007199254740992) :
    Num.add (some (Dbl.ofNat a)) (some (Dbl.ofNat b)) = some (Dbl.ofNat (a + b)) := by
  have ha : a < 9007199254740992 := by omega
  have hb : b < 9007199254740992 := by omega
  by_cases ha0 : a = 0
  · subst ha0
    rw [Dbl.ofNat_eq 0 ha, Dbl.ofNat_eq b hb]
    simp [Num.add, Dbl.add, Dbl.mag, Dbl.ofNat_eq b hb]
  · by_cases hb0 : b = 0
    · subst hb0
      rw [Dbl.ofNat_eq a ha, Dbl.ofNat_eq 0 hb]
      simp [Num.add, Dbl.add, Dbl.mag, ha0, Dbl.ofNat_eq a ha]
    · rw [Dbl.ofNat_eq a ha, Dbl.ofNat_eq b hb]
      simp [Num.add, Dbl.add, Dbl.mag, Dbl.isNeg, ha0, hb0, Dbl.ofNat]

theorem roundNum_ofNat (a : Nat) (h : a < 9007199254740992) :
    roundNum (some (Dbl.ofNat a)) = some (Dbl.ofNat (round_to_chunk_size a)) := by
  rw [Dbl.ofNat_eq a h]
  simp [roundNum, Dbl.isNeg, Dbl.mag, Dbl.ofNat]

/-! ## Rounding -/

theorem round_to_chunk_size_eq_ceil (n : Nat) :
    round_to_chunk_size n = ⌈(n : ℚ) / (MAX_CHUNK_SIZE : ℚ)⌉₊ * MAX_CHUNK_SIZE := by
  have hC : (MAX_CHUNK_SIZE : ℚ) = 262144 := by norm_num [MAX_CHUNK_SIZE]
  have key : ⌈(n : ℚ) / (MAX_CHUNK_SIZE : ℚ)⌉₊ = (n + 262143) / 262144 := by
    rw [hC]
    apply le_antisymm
    · rw [Nat.ceil_le, div_le_iff₀ (by norm_num)]
      have : n ≤ (n + 262143) / 262144 * 262144 := by omega
      exact_mod_cast this
    · have h1 : (n : ℚ) / 262144 ≤ (⌈(n : ℚ) / 262144⌉₊ : ℚ) := Nat.le_ceil _
      rw [div_le_iff₀ (by norm_num)] at h1
      have h2 : n ≤ ⌈(n : ℚ) / 262144⌉₊ * 262144 := by exact_mod_cast h1
      omega
  unfold round_to_chunk_size
  rw [key]
  simp [MAX_CHUNK_SIZE]

theorem le_round_to_chunk_size (n : Nat) : n ≤ round_to_chunk_size n := by
  unfold round_to_chunk_size MAX_CHUNK_SIZE
  omega

theorem round_to_chunk_size_lt (n : Nat) : round_to_chunk_size n < n + MAX_CHUNK_SIZE := by
  unfold round_to_chunk_size MAX_CHUNK_SIZE
  omega

theorem round_to_chunk_size_mod (n : Nat) : round_to_chunk_size n % MAX_CHUNK_SIZE = 0 := by
  unfold round_to_chunk_size
  exact Nat.mul_mod_left _ _

/-! ## What `rebase_proofs` returns -/

theorem rebase_proofs_returned (env : Env) (s : State) (left right : Transaction)
    (hl : left.chunks.proofs.length ≤ left.chunks.chunks.length)
    (hr : right.chunks.proofs.length ≤ right.chunks.chunks.length) :
    rebase_proofs env s left right = .returned (rebaseResult env s left right) := by
  unfold rebase_proofs
  simp only []
  rw [rebase_loop_returned _ _ _ _ _ _ _ _ 0 _ (by simpa using hl)]
  simp only []
  rw [rebase_loop_returned _ _ _ _ _ _ _ _ 0 _ (by simpa using hr)]
  simp [loopResult, rebaseResult, concatBuffers, foldl_shiftChunk_zero]

theorem Num.zero_add (x : Num) : Num.add (some 0) x = x := by
  have h0 : (0 : Dbl) = .nonneg ⟨0, by decide⟩ := Dbl.ofNat_eq 0 (by decide)
  cases x with
  | none => rfl
  | some d =>
    rw [h0]
    cases d <;> simp [Num.add, Dbl.add, Dbl.mag]

theorem rebasedProof_offset_zero (env : Env) (ldr rdr : Bytes) (ls : Num) (p : Proof) :
    (rebasedProof env ldr rdr ls (some 0) p).offset = p.offset := by
  simp [rebasedProof, Num.zero_add]

/-! ## Proof offsets -/

/-- C1. For left and right transactions whose chunk and proof lists have equal
length and a merged transaction whose proof list is empty, `rebase_proofs`
returns, and afterwards the proof at index `i` of merged, for `i` below the
number of left proofs, has the offset of the `i`-th left proof, and the proof at
index `left.proofs.length + j` has the offset
`round_to_chunk_size(left.data_size) + right.proofs[j].offset`. -/
theorem rebase_proofs_proof_offsets (env : Env) (s : State) (left right : Transaction)
    (hl : left.chunks.chunks.length = left.chunks.proofs.length)
    (hr : right.chunks.chunks.length = right.chunks.proofs.length)
    (hm : s.merged.chunks.proofs = []) :
    ∃ s', rebase_proofs env s left right = .returned s' ∧
      (∀ i (hi : i < left.chunks.proofs.length),
        s'.merged.chunks.proofs[i]?.map Proof.offset = some left.chunks.proofs[i].offset) ∧
      (∀ j (hj : j < right.chunks.proofs.length),
        s'.merged.chunks.proofs[left.chunks.proofs.length + j]?.map Proof.offset =
          some (Num.add (roundNum (parseInt left.data_size))
            right.chunks.proofs[j].offset)) := by
  refine ⟨_, rebase_proofs_returned env s left right (le_of_eq hl.symm) (le_of_eq hr.symm), ?_, ?_⟩
  · intro i hi
    simp only [rebaseResult, hm, List.nil_append]
    rw [List.getElem?_append_left (by simpa using hi)]
    simp [List.getElem?_eq_getElem hi, rebasedProof_offset_zero]
  · intro j hj
    simp only [rebaseResult, hm, List.nil_append]
    rw [List.getElem?_append_right (by simp)]
    simp [List.getElem?_eq_getElem hj, rebasedProof]

/-- Witness of C1: the example transactions `txA` and `txB`, merged into the
transaction that `merge_and_rebase_merkle_trees` returns for them. -/
theorem rebase_proofs_proof_offsets_witness :
    txA.chunks.chunks.length = txA.chunks.proofs.length ∧
    txB.chunks.chunks.length = txB.chunks.proofs.length ∧
    (merge_and_rebase_merkle_trees exampleEnv txA txB).chunks.proofs = [] ∧
    ∃ s', rebase_proofs exampleEnv
        { heap := exampleHeap, merged := merge_and_rebase_merkle_trees exampleEnv txA txB }
        txA txB = .returned s' ∧
      (∀ i (hi : i < txA.chunks.proofs.length),
        s'.merged.chunks.proofs[i]?.map Proof.offset = some txA.chunks.proofs[i].offset) ∧
      (∀ j (hj : j < txB.chunks.proofs.length),
        s'.merged.chunks.proofs[txA.chunks.proofs.length + j]?.map Proof.offset =
          some (Num.add (roundNum (parseInt txA.data_size)) txB.chunks.proofs[j].offset)) :=
  ⟨by decide, by decide, by decide,
    rebase_proofs_proof_offsets exampleEnv
      { heap := exampleHeap, merged := merge_and_rebase_merkle_trees exampleEnv txA txB }
      txA txB (by decide) (by decide) (by decide)⟩

/-! ## Rounding to the chunk size -/

/-- C3. With `C = MAX_CHUNK_SIZE = 262144`, for every non-negative integer `n`:
`round_to_chunk_size n` is a multiple of `C`, is at least `n`, is below `n + C`,
and is the least multiple of `C` that is at least `n`; it maps `0` to `0`,
`262144` to `262144`, `474000` to `524288` and `120000` to `262144`. -/
theorem round_to_chunk_size_spec :
    MAX_CHUNK_SIZE = 262144 ∧
    (∀ n : Nat, round_to_chunk_size n % MAX_CHUNK_SIZE = 0 ∧
      n ≤ round_to_chunk_size n ∧
      round_to_chunk_size n < n + MAX_CHUNK_SIZE ∧
      ∀ m : Nat, m % MAX_CHUNK_SIZE = 0 → n ≤ m → round_to_chunk_size n ≤ m) ∧
    round_to_chunk_size 0 = 0 ∧
    round_to_chunk_size 262144 = 262144 ∧
    round_to_chunk_size 474000 = 524288 ∧
    round_to_chunk_size 120000 = 262144 := by
  refine ⟨by decide, fun n => ⟨round_to_chunk_size_mod n, le_round_to_chunk_size n,
    round_to_chunk_size_lt n, ?_⟩, by decide, by decide, by decide, by decide⟩
  intro m hm hnm
  unfold round_to_chunk_size MAX_CHUNK_SIZE at *
  omega

/-! ## The marker -/

/-- C4. For left and right transactions whose chunk and proof lists have equal
length and a merged transaction whose proof list is empty, `rebase_proofs`
returns, and every proof it has pushed consists of 32 zero bytes, the left data
root, the right data root, `intToBuffer(round_to_chunk_size(left.data_size))` and
the bytes of the original proof, in this order and with nothing in between; the
marker is the same for the proofs of the left and of the right tree, and the
original bytes are a suffix of the rebased bytes. -/
theorem rebase_proofs_marker (env : Env) (s : State) (left right : Transaction)
    (hl : left.chunks.chunks.length = left.chunks.proofs.length)
    (hr : right.chunks.chunks.length = right.chunks.proofs.length)
    (hm : s.merged.chunks.proofs = []) :
    (∀ (m : Transaction) (ldr rdr : Bytes) (ls shift : Num) (p : Proof),
      (rebase_proof env m ldr rdr ls shift p).chunks.proofs = m.chunks.proofs ++
        [{ proof := List.replicate 32 0 ++ ldr ++ rdr ++ env.intToBuffer (roundNum ls) ++ p.proof
           offset := Num.add shift p.offset }]) ∧
    ∃ s', rebase_proofs env s left right = .returned s' ∧
      (∀ i (hi : i < left.chunks.proofs.length),
        s'.merged.chunks.proofs[i]?.map Proof.proof =
          some (List.replicate 32 0 ++ left.chunks.data_root ++ right.chunks.data_root ++
            env.intToBuffer (roundNum (parseInt left.data_size)) ++
            left.chunks.proofs[i].proof)) ∧
      (∀ j (hj : j < right.chunks.proofs.length),
        s'.merged.chunks.proofs[left.chunks.proofs.length + j]?.map Proof.proof =
          some (List.replicate 32 0 ++ left.chunks.data_root ++ right.chunks.data_root ++
            env.intToBuffer (roundNum (parseInt left.data_size)) ++
            right.chunks.proofs[j].proof)) ∧
      (∀ i (hi : i < left.chunks.proofs.length), ∃ q, s'.merged.chunks.proofs[i]? = some q ∧
        left.chunks.proofs[i].proof <:+ q.proof) ∧
      (∀ j (hj : j < right.chunks.proofs.length), ∃ q,
        s'.merged.chunks.proofs[left.chunks.proofs.length + j]? = some q ∧
        right.chunks.proofs[j].proof <:+ q.proof) := by
  refine ⟨?_, _, rebase_proofs_returned env s left right (le_of_eq hl.symm) (le_of_eq hr.symm),
    ?_, ?_, ?_, ?_⟩
  · intro m ldr rdr ls shift p
    simp [rebase_proof, concatBuffers, REBASE_MARK, HASH_SIZE]
  · intro i hi
    simp only [rebaseResult, hm, List.nil_append]
    rw [List.getElem?_append_left (by simpa using hi)]
    simp [List.getElem?_eq_getElem hi, rebasedProof, REBASE_MARK, HASH_SIZE]
  · intro j hj
    simp only [rebaseResult, hm, List.nil_append]
    rw [List.getElem?_append_right (by simp)]
    simp [List.getElem?_eq_getElem hj, rebasedProof, REBASE_MARK, HASH_SIZE]
  · intro i hi
    simp only [rebaseResult, hm, List.nil_append]
    rw [List.getElem?_append_left (by simpa using hi)]
    refine ⟨_, by simp [List.getElem?_eq_getElem hi]; rfl, ?_⟩
    simp only [rebasedProof, ← List.append_assoc]
    exact List.suffix_append _ _
  · intro j hj
    simp only [rebaseResult, hm, List.nil_append]
    rw [List.getElem?_append_right (by simp)]
    refine ⟨_, by simp [List.getElem?_eq_getElem hj]; rfl, ?_⟩
    simp only [rebasedProof, ← List.append_assoc]
    exact List.suffix_append _ _

/-- Witness of C4: the example transactions `txA` and `txB`; the rebased proof of
the only proof of `txB` is the marker followed by that proof's byte `22`. -/
theorem rebase_proofs_marker_witness :
    txA.chunks.chunks.length = txA.chunks.proofs.length ∧
    txB.chunks.chunks.length = txB.chunks.proofs.length ∧
    (merge_and_rebase_merkle_trees exampleEnv txA txB).chunks.proofs = [] ∧
    ∃ s', rebase_proofs exampleEnv
        { heap := exampleHeap, merged := merge_and_rebase_merkle_trees exampleEnv txA txB }
        txA txB = .returned s' ∧
      ∀ j (hj : j < txB.chunks.proofs.length),
        s'.merged.chunks.proofs[txA.chunks.proofs.length + j]?.map Proof.proof =
          some (List.replicate 32 0 ++ txA.chunks.data_root ++ txB.chunks.data_root ++
            exampleEnv.intToBuffer (roundNum (parseInt txA.data_size)) ++
            txB.chunks.proofs[j].proof) :=
  ⟨by decide, by decide, by decide,
    (rebase_proofs_marker exampleEnv
      { heap := exampleHeap, merged := merge_and_rebase_merkle_trees exampleEnv txA txB }
      txA txB (by decide) (by decide) (by decide)).2.imp fun _ h => ⟨h.1, h.2.2.1⟩⟩

/-! ## The merged transaction -/

/-- C5, as stated, fails above the safe integers: for the left size
`9007199254740991` and the right size `1`, both decimal numerals,
`round_to_chunk_size` of the left size plus the right size is
`9007199254740993`, but the sum of line 64 is a double, `9007199254740992`,
which is what the `data_size` of the merged transaction, read back, gives. -/
theorem merge_data_size_counterexample :
    isDecimal txMaxSafe.data_size ∧ isDecimal txOne.data_size ∧
    round_to_chunk_size (decimalValue txMaxSafe.data_size) + decimalValue txOne.data_size =
      9007199254740993 ∧
    (merge_and_rebase_merkle_trees exampleEnv txMaxSafe txOne).data_size =
      "9007199254740992" ∧
    (parseInt (merge_and_rebase_merkle_trees exampleEnv txMaxSafe txOne).data_size).map
      Dbl.mag = some 9007199254740992 := by
  decide

/-- C5, amended.  For transactions whose `data_size` fields are decimal numerals
such that `round_to_chunk_size` of the left size plus the right size is a safe
integer (below `2^53`), the `data_size` of the transaction returned by
`merge_and_rebase_merkle_trees`, read back with `parseInt`, is that sum. -/
theorem merge_data_size (env : Env) (left right : Transaction)
    (hl : isDecimal left.data_size) (hr : isDecimal right.data_size)
    (hb : round_to_chunk_size (decimalValue left.data_size) +
      decimalValue right.data_size < 9007199254740992) :
    parseInt (merge_and_rebase_merkle_trees env left right).data_size =
      some (Dbl.ofNat (round_to_chunk_size (decimalValue left.data_size) +
        decimalValue right.data_size)) := by
  have ha : decimalValue left.data_size < 9007199254740992 := by
    have := le_round_to_chunk_size (decimalValue left.data_size)
    omega
  simp only [merge_and_rebase_merkle_trees, parseInt_of_isDecimal _ hl,
    parseInt_of_isDecimal _ hr, roundNum_ofNat _ ha, Num.add_ofNat _ _ hb]
  exact parseInt_numToString _ hb

/-- Witness of C5 (amended): left size 474000 and right size 120000 give 644288. -/
theorem merge_data_size_witness :
    isDecimal tx474000.data_size ∧ isDecimal tx120000.data_size ∧
    decimalValue tx474000.data_size = 474000 ∧ decimalValue tx120000.data_size = 120000 ∧
    round_to_chunk_size (decimalValue tx474000.data_size) +
      decimalValue tx120000.data_size < 9007199254740992 ∧
    parseInt (merge_and_rebase_merkle_trees exampleEnv tx474000 tx120000).data_size =
      some (Dbl.ofNat 644288) :=
  ⟨by decide, by decide, by decide, by decide, by decide,
    (merge_data_size exampleEnv tx474000 tx120000 (by decide) (by decide) (by decide)).trans
      (by decide)⟩

/-- C6. The transaction returned by `merge_and_rebase_merkle_trees` has the root
`H(H(left root) ++ H(right root) ++ H(intToBuffer(round_to_chunk_size(left size))))`,
in `chunks.data_root` and, base64url-encoded, in `data_root`, and has empty chunk
and proof lists. -/
theorem merge_root (env : Env) (left right : Transaction) :
    (merge_and_rebase_merkle_trees env left right).chunks.data_root =
      env.hash (env.hash left.chunks.data_root ++ env.hash right.chunks.data_root ++
        env.hash (env.intToBuffer (roundNum (parseInt left.data_size)))) ∧
    (merge_and_rebase_merkle_trees env left right).data_root =
      env.bufferTob64Url (merge_and_rebase_merkle_trees env left right).chunks.data_root ∧
    (merge_and_rebase_merkle_trees env left right).chunks.chunks = [] ∧
    (merge_and_rebase_merkle_trees env left right).chunks.proofs = [] := by
  simp [merge_and_rebase_merkle_trees, concatBuffers]

/-! ## Leaf counts -/

/-- C7. For left and right trees whose chunk and proof lists have equal length
and the transaction freshly returned by `merge_and_rebase_merkle_trees`,
`rebase_proofs` returns and leaves in it as many chunks as left and right have
together, as many proofs as left and right have together, and as many chunks as
proofs. -/
theorem rebase_proofs_lengths (env : Env) (heap : Heap) (left right : Transaction)
    (hl : left.chunks.chunks.length = left.chunks.proofs.length)
    (hr : right.chunks.chunks.length = right.chunks.proofs.length) :
    ∃ s', rebase_proofs env
        { heap := heap, merged := merge_and_rebase_merkle_trees env left right }
        left right = .returned s' ∧
      s'.merged.chunks.chunks.length =
        left.chunks.chunks.length + right.chunks.chunks.length ∧
      s'.merged.chunks.proofs.length =
        left.chunks.proofs.length + right.chunks.proofs.length ∧
      s'.merged.chunks.chunks.length = s'.merged.chunks.proofs.length := by
  refine ⟨_, rebase_proofs_returned env _ left right (le_of_eq hl.symm) (le_of_eq hr.symm),
    ?_, ?_, ?_⟩
  · simp [rebaseResult, merge_and_rebase_merkle_trees, hl, hr]
  · simp [rebaseResult, merge_and_rebase_merkle_trees]
  · simp [rebaseResult, merge_and_rebase_merkle_trees, hl, hr]

/-- Witness of C7: the example transactions `txA` and `txB`, three chunks and three proofs. -/
theorem rebase_proofs_lengths_witness :
    txA.chunks.chunks.length = txA.chunks.proofs.length ∧
    txB.chunks.chunks.length = txB.chunks.proofs.length ∧
    ∃ s', rebase_proofs exampleEnv
        { heap := exampleHeap, merged := merge_and_rebase_merkle_trees exampleEnv txA txB }
        txA txB = .returned s' ∧
      s'.merged.chunks.chunks.length = txA.chunks.chunks.length + txB.chunks.chunks.length ∧
      s'.merged.chunks.proofs.length = txA.chunks.proofs.length + txB.chunks.proofs.length ∧
      s'.merged.chunks.chunks.length = s'.merged.chunks.proofs.length :=
  ⟨by decide, by decide, rebase_proofs_lengths exampleEnv exampleHeap txA txB (by decide) (by decide)⟩

/-! ## Chunk objects after the loops -/

theorem shiftChunk_apply (k : Nat) (h : Heap) (c0 c : ChunkRef) :
    shiftChunk k h c0 c =
      if c = c0 then
        { dataHash := (h c).dataHash
          minByteRange := k + (h c).minByteRange
          maxByteRange := k + (h c).maxByteRange }
      else h c := by
  unfold shiftChunk
  by_cases hc : c = c0
  · subst hc
    simp
  · simp [Function.update_noteq hc, hc]

theorem foldl_shiftChunk_apply (k : Nat) (cs : List ChunkRef) :
    ∀ (h : Heap) (c : ChunkRef),
      (cs.foldl (shiftChunk k) h) c =
        { dataHash := (h c).dataHash
          minByteRange := cs.count c * k + (h c).minByteRange
          maxByteRange := cs.count c * k + (h c).maxByteRange } := by
  induction cs with
  | nil => intro h c; simp
  | cons c0 cs ih =>
    intro h c
    rw [List.foldl_cons, ih, shiftChunk_apply]
    by_cases hc : c = c0
    · subst hc
      simp only [if_true, List.count_cons_self, Chunk.mk.injEq, true_and]
      constructor <;> ring
    · have hc' : (c0 == c) = false := by simpa using fun h => hc h.symm
      simp [hc, List.count_cons, hc']

theorem rebaseResult_heap_apply (env : Env) (s : State) (left right : Transaction)
    (hr : right.chunks.chunks.length = right.chunks.proofs.length) (c : ChunkRef) :
    (rebaseResult env s left right).heap c =
      { dataHash := (s.heap c).dataHash
        minByteRange := right.chunks.chunks.count c * left.data.length + (s.heap c).minByteRange
        maxByteRange := right.chunks.chunks.count c * left.data.length +
          (s.heap c).maxByteRange } := by
  simp only [rebaseResult, ← hr, List.take_length]
  exact foldl_shiftChunk_apply _ _ _ _

theorem rebaseResult_chunks (env : Env) (s : State) (left right : Transaction)
    (hl : left.chunks.chunks.length = left.chunks.proofs.length)
    (hr : right.chunks.chunks.length = right.chunks.proofs.length) :
    (rebaseResult env s left right).merged.chunks.chunks =
      s.merged.chunks.chunks ++ (left.chunks.chunks ++ right.chunks.chunks) := by
  simp [rebaseResult, ← hl, ← hr]

/-! ## The Chunk invariant -/

theorem Contiguous.append {a b c : Nat} {xs ys : List (Nat × Nat)} :
    Contiguous a xs b → Contiguous b ys c → Contiguous a (xs ++ ys) c := by
  induction xs generalizing a with
  | nil =>
    intro h1 h2
    simp only [Contiguous] at h1
    subst h1
    simpa using h2
  | cons r rest ih =>
    intro h1 h2
    simp only [Contiguous, List.cons_append] at h1 ⊢
    exact ⟨h1.1, h1.2.1, ih h1.2.2 h2⟩

theorem Contiguous.shift (k : Nat) {a b : Nat} {xs : List (Nat × Nat)} :
    Contiguous a xs b →
      Contiguous (k + a) (xs.map fun r => (k + r.1, k + r.2)) (k + b) := by
  induction xs generalizing a with
  | nil =>
    intro h
    simp only [Contiguous, List.map_nil] at h ⊢
    omega
  | cons r rest ih =>
    intro h
    simp only [Contiguous, List.map_cons] at h ⊢
    exact ⟨by omega, by omega, ih h.2.2⟩

/-! ## Chunk ranges -/

/-- C2, as stated, fails on two inputs.  First, the left tree `stateAB.merged` is
the output of merging and rebasing `txA` and `txB`: its declared `data_size` is
262148, its data buffer holds 9 bytes, and the chunk of the right tree `txC`,
the range from 0 to 3 before the call, has the range from 9 to 12 afterwards,
shifted by the buffer length and not by the declared size.  Second, with `txB`
as left and as right tree, the chunk at index 0 of merged is the chunk object of
`txB`, which the right loop has moved from the range 0 to 4 to the range 4 to
8. -/
theorem rebase_proofs_chunk_ranges_counterexample :
    ((merge_and_rebase_merkle_trees exampleEnv stateAB.merged txC).chunks.chunks = [] ∧
      parseInt stateAB.merged.data_size = some 262148 ∧
      stateAB.merged.chunks.chunks.length = 3 ∧
      txC.chunks.chunks = [3] ∧
      (stateAB.heap 3).minByteRange = 0 ∧
      (rebase_proofs exampleEnv
        { heap := stateAB.heap
          merged := merge_and_rebase_merkle_trees exampleEnv stateAB.merged txC }
        stateAB.merged txC).isReturned = true ∧
      (rebase_proofs exampleEnv
        { heap := stateAB.heap
          merged := merge_and_rebase_merkle_trees exampleEnv stateAB.merged txC }
        stateAB.merged txC).state.merged.chunks.chunks[3]? = some 3 ∧
      ((rebase_proofs exampleEnv
        { heap := stateAB.heap
          merged := merge_and_rebase_merkle_trees exampleEnv stateAB.merged txC }
        stateAB.merged txC).state.heap 3).minByteRange = 9 ∧
      9 ≠ 262148 + (stateAB.heap 3).minByteRange) ∧
    ((merge_and_rebase_merkle_trees exampleEnv txB txB).chunks.chunks = [] ∧
      txB.chunks.chunks = [2] ∧
      (rebase_proofs exampleEnv
        { heap := exampleHeap, merged := merge_and_rebase_merkle_trees exampleEnv txB txB }
        txB txB).isReturned = true ∧
      (rebase_proofs exampleEnv
        { heap := exampleHeap, merged := merge_and_rebase_merkle_trees exampleEnv txB txB }
        txB txB).state.merged.chunks.chunks[0]? = some 2 ∧
      rangeOf exampleHeap 2 = (0, 4) ∧
      rangeOf (rebase_proofs exampleEnv
        { heap := exampleHeap, merged := merge_and_rebase_merkle_trees exampleEnv txB txB }
        txB txB).state.heap 2 = (4, 8)) := by
  decide

/-- C2, amended.  For left and right trees (chunk and proof lists of equal
length) such that the chunk objects of right are pairwise distinct and none of
them is a chunk object of left, and a merged transaction with an empty chunk
list, `rebase_proofs` returns, and afterwards chunk `i` of merged is chunk `i`
of left with its range unchanged, and chunk `n_left + j` of merged is chunk `j`
of right with `minByteRange` and `maxByteRange` increased by the length of the
data buffer of left. -/
theorem rebase_proofs_chunk_ranges (env : Env) (heap : Heap)
    (merged left right : Transaction)
    (hl : left.chunks.chunks.length = left.chunks.proofs.length)
    (hr : right.chunks.chunks.length = right.chunks.proofs.length)
    (hm : merged.chunks.chunks = [])
    (hnd : right.chunks.chunks.Nodup)
    (hdis : ∀ c ∈ left.chunks.chunks, c ∉ right.chunks.chunks) :
    ∃ s', rebase_proofs env { heap := heap, merged := merged } left right = .returned s' ∧
      (∀ i (hi : i < left.chunks.chunks.length),
        s'.merged.chunks.chunks[i]? = some left.chunks.chunks[i] ∧
        (s'.heap left.chunks.chunks[i]).minByteRange =
          (heap left.chunks.chunks[i]).minByteRange ∧
        (s'.heap left.chunks.chunks[i]).maxByteRange =
          (heap left.chunks.chunks[i]).maxByteRange) ∧
      (∀ j (hj : j < right.chunks.chunks.length),
        s'.merged.chunks.chunks[left.chunks.chunks.length + j]? =
          some right.chunks.chunks[j] ∧
        (s'.heap right.chunks.chunks[j]).minByteRange =
          left.data.length + (heap right.chunks.chunks[j]).minByteRange ∧
        (s'.heap right.chunks.chunks[j]).maxByteRange =
          left.data.length + (heap right.chunks.chunks[j]).maxByteRange) := by
  refine ⟨_, rebase_proofs_returned env _ left right (le_of_eq hl.symm) (le_of_eq hr.symm),
    ?_, ?_⟩
  · intro i hi
    have hc : right.chunks.chunks.count left.chunks.chunks[i] = 0 :=
      List.count_eq_zero.mpr (hdis _ (List.getElem_mem _))
    rw [rebaseResult_chunks env _ left right hl hr, rebaseResult_heap_apply env _ left right hr]
    simp only [hm, List.nil_append, hc, Nat.zero_mul, Nat.zero_add, and_self, and_true]
    rw [List.getElem?_append_left hi, List.getElem?_eq_getElem hi]
  · intro j hj
    have hc : right.chunks.chunks.count right.chunks.chunks[j] = 1 :=
      List.count_eq_one_of_mem hnd (List.getElem_mem _)
    rw [rebaseResult_chunks env _ left right hl hr, rebaseResult_heap_apply env _ left right hr]
    simp only [hm, List.nil_append, hc, Nat.one_mul, and_self, and_true]
    rw [List.getElem?_append_right (by simp)]
    simp [List.getElem?_eq_getElem hj]

/-- Witness of C2 (amended): the left tree is the output of merging and rebasing
`txA` and `txB`, the right tree is `txC`. -/
theorem rebase_proofs_chunk_ranges_witness :
    stateAB.merged.chunks.chunks.length = stateAB.merged.chunks.proofs.length ∧
    txC.chunks.chunks.length = txC.chunks.proofs.length ∧
    (merge_and_rebase_merkle_trees exampleEnv stateAB.merged txC).chunks.chunks = [] ∧
    txC.chunks.chunks.Nodup ∧
    (∀ c ∈ stateAB.merged.chunks.chunks, c ∉ txC.chunks.chunks) ∧
    ∃ s', rebase_proofs exampleEnv
        { heap := stateAB.heap
          merged := merge_and_rebase_merkle_trees exampleEnv stateAB.merged txC }
        stateAB.merged txC = .returned s' ∧
      ∀ j (hj : j < txC.chunks.chunks.length),
        s'.merged.chunks.chunks[stateAB.merged.chunks.chunks.length + j]? =
          some txC.chunks.chunks[j] ∧
        (s'.heap txC.chunks.chunks[j]).minByteRange =
          stateAB.merged.data.length + (stateAB.heap txC.chunks.chunks[j]).minByteRange ∧
        (s'.heap txC.chunks.chunks[j]).maxByteRange =
          stateAB.merged.data.length + (stateAB.heap txC.chunks.chunks[j]).maxByteRange :=
  ⟨by decide, by decide, by decide, by decide, by decide,
    (rebase_proofs_chunk_ranges exampleEnv stateAB.heap
      (merge_and_rebase_merkle_trees exampleEnv stateAB.merged txC) stateAB.merged txC
      (by decide) (by decide) (by decide) (by decide) (by decide)).imp
      fun _ h => ⟨h.1, h.2.2⟩⟩

/-! ## The Chunk invariant is kept -/

theorem rangesOf_rebaseResult_left (env : Env) (s : State) (left right : Transaction)
    (hr : right.chunks.chunks.length = right.chunks.proofs.length)
    (cs : List ChunkRef) (hdis : ∀ c ∈ cs, c ∉ right.chunks.chunks) :
    rangesOf (rebaseResult env s left right).heap cs = rangesOf s.heap cs := by
  unfold rangesOf
  apply List.map_congr_left
  intro c hc
  simp [rangeOf, rebaseResult_heap_apply env s left right hr,
    List.count_eq_zero.mpr (hdis c hc)]

theorem rangesOf_rebaseResult_right (env : Env) (s : State) (left right : Transaction)
    (hr : right.chunks.chunks.length = right.chunks.proofs.length)
    (hnd : right.chunks.chunks.Nodup) :
    rangesOf (rebaseResult env s left right).heap right.chunks.chunks =
      (rangesOf s.heap right.chunks.chunks).map
        fun r => (left.data.length + r.1, left.data.length + r.2) := by
  unfold rangesOf
  rw [List.map_map]
  apply List.map_congr_left
  intro c hc
  simp [rangeOf, rebaseResult_heap_apply env s left right hr,
    List.count_eq_one_of_mem hnd hc]

/-- C8, as stated, fails when left and right share a chunk object: with `txB`,
whose one chunk tiles its 4 bytes, as left and as right tree, the chunk list of
merged afterwards holds the same chunk object twice, with the range from 4 to 8;
the ranges do not start at 0 and do not tile the 8 bytes of the merged data. -/
theorem rebase_proofs_contiguous_counterexample :
    Contiguous 0 (rangesOf exampleHeap txB.chunks.chunks) txB.data.length ∧
    (merge_and_rebase_merkle_trees exampleEnv txB txB).chunks.chunks = [] ∧
    (rebase_proofs exampleEnv
      { heap := exampleHeap, merged := merge_and_rebase_merkle_trees exampleEnv txB txB }
      txB txB).isReturned = true ∧
    rangesOf
      (rebase_proofs exampleEnv
        { heap := exampleHeap, merged := merge_and_rebase_merkle_trees exampleEnv txB txB }
        txB txB).state.heap
      (rebase_proofs exampleEnv
        { heap := exampleHeap, merged := merge_and_rebase_merkle_trees exampleEnv txB txB }
        txB txB).state.merged.chunks.chunks = [(4, 8), (4, 8)] ∧
    ¬ Contiguous 0
      (rangesOf
        (rebase_proofs exampleEnv
          { heap := exampleHeap, merged := merge_and_rebase_merkle_trees exampleEnv txB txB }
          txB txB).state.heap
        (rebase_proofs exampleEnv
          { heap := exampleHeap, merged := merge_and_rebase_merkle_trees exampleEnv txB txB }
          txB txB).state.merged.chunks.chunks)
      (rebase_proofs exampleEnv
        { heap := exampleHeap, merged := merge_and_rebase_merkle_trees exampleEnv txB txB }
        txB txB).state.merged.data.length := by
  decide

/-- C8, amended.  For left and right trees (chunk and proof lists of equal
length) such that the chunk objects of right are pairwise distinct and none of
them is a chunk object of left: if the chunk ranges of left tile the data buffer
of left and those of right tile the data buffer of right (`Contiguous`), and
merged starts with an empty chunk list, then `rebase_proofs` returns and the
chunk ranges of merged tile the data buffer of merged, whose length is the
length of the left data plus the length of the right data. -/
theorem rebase_proofs_contiguous (env : Env) (heap : Heap)
    (merged left right : Transaction)
    (hl : left.chunks.chunks.length = left.chunks.proofs.length)
    (hr : right.chunks.chunks.length = right.chunks.proofs.length)
    (hm : merged.chunks.chunks = [])
    (hnd : right.chunks.chunks.Nodup)
    (hdis : ∀ c ∈ left.chunks.chunks, c ∉ right.chunks.chunks)
    (hcl : Contiguous 0 (rangesOf heap left.chunks.chunks) left.data.length)
    (hcr : Contiguous 0 (rangesOf heap right.chunks.chunks) right.data.length) :
    ∃ s', rebase_proofs env { heap := heap, merged := merged } left right = .returned s' ∧
      Contiguous 0 (rangesOf s'.heap s'.merged.chunks.chunks) s'.merged.data.length ∧
      s'.merged.data.length = left.data.length + right.data.length := by
  refine ⟨_, rebase_proofs_returned env _ left right (le_of_eq hl.symm) (le_of_eq hr.symm),
    ?_, ?_⟩
  · rw [rebaseResult_chunks env _ left right hl hr]
    have hlen : (rebaseResult env { heap := heap, merged := merged } left right).merged.data.length
        = left.data.length + right.data.length := by
      simp [rebaseResult]
    have hsplit : ∀ (h : Heap) (xs ys : List ChunkRef),
        rangesOf h (xs ++ ys) = rangesOf h xs ++ rangesOf h ys := by
      intro h xs ys
      simp [rangesOf]
    rw [hlen, hm, List.nil_append, hsplit,
      rangesOf_rebaseResult_left env _ left right hr _ hdis,
      rangesOf_rebaseResult_right env _ left right hr hnd]
    exact Contiguous.append hcl (by simpa using Contiguous.shift left.data.length hcr)
  · simp [rebaseResult]

/-- Witness of C8 (amended): the example transactions `txA` and `txB`. -/
theorem rebase_proofs_contiguous_witness :
    txA.chunks.chunks.length = txA.chunks.proofs.length ∧
    txB.chunks.chunks.length = txB.chunks.proofs.length ∧
    (merge_and_rebase_merkle_trees exampleEnv txA txB).chunks.chunks = [] ∧
    txB.chunks.chunks.Nodup ∧
    (∀ c ∈ txA.chunks.chunks, c ∉ txB.chunks.chunks) ∧
    Contiguous 0 (rangesOf exampleHeap txA.chunks.chunks) txA.data.length ∧
    Contiguous 0 (rangesOf exampleHeap txB.chunks.chunks) txB.data.length ∧
    ∃ s', rebase_proofs exampleEnv
        { heap := exampleHeap, merged := merge_and_rebase_merkle_trees exampleEnv txA txB }
        txA txB = .returned s' ∧
      Contiguous 0 (rangesOf s'.heap s'.merged.chunks.chunks) s'.merged.data.length ∧
      s'.merged.data.length = txA.data.length + txB.data.length :=
  ⟨by decide, by decide, by decide, by decide, by decide, by decide, by decide,
    rebase_proofs_contiguous exampleEnv exampleHeap
      (merge_and_rebase_merkle_trees exampleEnv txA txB) txA txB
      (by decide) (by decide) (by decide) (by decide) (by decide) (by decide) (by decide)⟩

/-! ## No check of the merged transaction -/

/-- C9, as stated, fails: `strangerTx` was not produced by merging `txA` and
`txB` (its `data_size` is 0 where the merge gives 262148, and its root differs
from the merged root), yet `rebase_proofs` on it returns and has pushed the
three rebased proofs, with their offsets. -/
theorem rebase_proofs_precondition_counterexample :
    parseInt strangerTx.data_size = some 0 ∧
    Num.add (roundNum (parseInt txA.data_size)) (parseInt txB.data_size) = some 262148 ∧
    strangerTx.chunks.data_root ≠
      (merge_and_rebase_merkle_trees exampleEnv txA txB).chunks.data_root ∧
    (rebase_proofs exampleEnv { heap := exampleHeap, merged := strangerTx }
      txA txB).isReturned = true ∧
    (rebase_proofs exampleEnv { heap := exampleHeap, merged := strangerTx }
      txA txB).state.merged.chunks.proofs.map Proof.offset =
        [some 2, some 4, some 262147] := by
  decide

/-- C9, amended.  `rebase_proofs` makes no check of merged against left and
right: for every merged transaction and all left and right trees whose chunk
and proof lists have equal length it returns, it leaves the `data_size` and the
roots of merged as they were, and it sets the same data, appends the same
chunks and the same proofs, and leaves the chunk objects in the same state, as
it does for the transaction that `merge_and_rebase_merkle_trees` returns for
left and right. -/
theorem rebase_proofs_no_check (env : Env) (heap : Heap) (merged left right : Transaction)
    (hl : left.chunks.chunks.length = left.chunks.proofs.length)
    (hr : right.chunks.chunks.length = right.chunks.proofs.length) :
    ∃ s' t', rebase_proofs env { heap := heap, merged := merged } left right = .returned s' ∧
      rebase_proofs env
        { heap := heap, merged := merge_and_rebase_merkle_trees env left right }
        left right = .returned t' ∧
      s'.merged.data_size = merged.data_size ∧
      s'.merged.data_root = merged.data_root ∧
      s'.merged.chunks.data_root = merged.chunks.data_root ∧
      s'.merged.data = t'.merged.data ∧
      s'.merged.chunks.chunks = merged.chunks.chunks ++ t'.merged.chunks.chunks ∧
      s'.merged.chunks.proofs = merged.chunks.proofs ++ t'.merged.chunks.proofs ∧
      s'.heap = t'.heap := by
  refine ⟨_, _,
    rebase_proofs_returned env _ left right (le_of_eq hl.symm) (le_of_eq hr.symm),
    rebase_proofs_returned env _ left right (le_of_eq hl.symm) (le_of_eq hr.symm), ?_⟩
  simp [rebaseResult, merge_and_rebase_merkle_trees]

/-- Witness of C9 (amended): `strangerTx` with the example transactions `txA` and `txB`. -/
theorem rebase_proofs_no_check_witness :
    txA.chunks.chunks.length = txA.chunks.proofs.length ∧
    txB.chunks.chunks.length = txB.chunks.proofs.length ∧
    ∃ s' t', rebase_proofs exampleEnv { heap := exampleHeap, merged := strangerTx }
        txA txB = .returned s' ∧
      rebase_proofs exampleEnv
        { heap := exampleHeap, merged := merge_and_rebase_merkle_trees exampleEnv txA txB }
        txA txB = .returned t' ∧
      s'.merged.data_size = strangerTx.data_size ∧
      s'.merged.data_root = strangerTx.data_root ∧
      s'.merged.chunks.data_root = strangerTx.chunks.data_root ∧
      s'.merged.data = t'.merged.data ∧
      s'.merged.chunks.chunks = strangerTx.chunks.chunks ++ t'.merged.chunks.chunks ∧
      s'.merged.chunks.proofs = strangerTx.chunks.proofs ++ t'.merged.chunks.proofs ∧
      s'.heap = t'.heap :=
  ⟨by decide, by decide,
    rebase_proofs_no_check exampleEnv exampleHeap strangerTx txA txB (by decide) (by decide)⟩

/-! ## What `rebase_proofs` writes -/

/-- C10, as stated, fails: after `rebase_proofs` on `txA` and `txB` the chunk
object of the right tree `txB`, the range from 0 to 4 before the call, has the
range from 5 to 9; and a second call with the same trees and another fresh
merged transaction leaves it, as chunk 2 of either merged transaction, with the
range from 10 to 14. -/
theorem rebase_proofs_frame_counterexample :
    txB.chunks.chunks = [2] ∧
    rangeOf exampleHeap 2 = (0, 4) ∧
    (rebase_proofs exampleEnv
      { heap := exampleHeap, merged := merge_and_rebase_merkle_trees exampleEnv txA txB }
      txA txB).isReturned = true ∧
    rangeOf stateAB.heap 2 = (5, 9) ∧
    rangesOf stateAB.heap stateAB.merged.chunks.chunks = [(0, 3), (3, 5), (5, 9)] ∧
    (rebase_proofs exampleEnv
      { heap := stateAB.heap, merged := merge_and_rebase_merkle_trees exampleEnv txA txB }
      txA txB).isReturned = true ∧
    rangesOf
      (rebase_proofs exampleEnv
        { heap := stateAB.heap, merged := merge_and_rebase_merkle_trees exampleEnv txA txB }
        txA txB).state.heap
      (rebase_proofs exampleEnv
        { heap := stateAB.heap, merged := merge_and_rebase_merkle_trees exampleEnv txA txB }
        txA txB).state.merged.chunks.chunks = [(0, 3), (3, 5), (10, 14)] := by
  decide

/-- C10, amended.  For left and right trees whose chunk and proof lists have
equal length, `rebase_proofs` returns and writes, besides merged, the chunk
objects of right only: a chunk object keeps its `dataHash`, and its
`minByteRange` and `maxByteRange` grow by the length of the left data buffer
once for each occurrence of the object in the chunk list of right; so a chunk
object that is not in the chunk list of right (every left chunk that right does
not share) is as before.  A second call with the same left and right and
another merged transaction that starts with the same lists sets the same data,
the same proofs and the same list of chunk objects, and has then moved each
chunk object of right a second time. -/
theorem rebase_proofs_frame (env : Env) (heap : Heap) (merged merged2 left right : Transaction)
    (hl : left.chunks.chunks.length = left.chunks.proofs.length)
    (hr : right.chunks.chunks.length = right.chunks.proofs.length)
    (hc : merged2.chunks.chunks = merged.chunks.chunks)
    (hp : merged2.chunks.proofs = merged.chunks.proofs) :
    ∃ s', rebase_proofs env { heap := heap, merged := merged } left right = .returned s' ∧
      (∀ c, (s'.heap c).dataHash = (heap c).dataHash ∧
        (s'.heap c).minByteRange =
          right.chunks.chunks.count c * left.data.length + (heap c).minByteRange ∧
        (s'.heap c).maxByteRange =
          right.chunks.chunks.count c * left.data.length + (heap c).maxByteRange) ∧
      (∀ c, c ∉ right.chunks.chunks → s'.heap c = heap c) ∧
      ∃ s'', rebase_proofs env { heap := s'.heap, merged := merged2 } left right =
          .returned s'' ∧
        s''.merged.data = s'.merged.data ∧
        s''.merged.chunks.proofs = s'.merged.chunks.proofs ∧
        s''.merged.chunks.chunks = s'.merged.chunks.chunks ∧
        ∀ c, (s''.heap c).minByteRange =
            2 * (right.chunks.chunks.count c * left.data.length) + (heap c).minByteRange ∧
          (s''.heap c).maxByteRange =
            2 * (right.chunks.chunks.count c * left.data.length) + (heap c).maxByteRange := by
  refine ⟨_, rebase_proofs_returned env _ left right (le_of_eq hl.symm) (le_of_eq hr.symm),
    ?_, ?_, _, rebase_proofs_returned env _ left right (le_of_eq hl.symm) (le_of_eq hr.symm),
    ?_, ?_, ?_, ?_⟩
  · intro c
    simp [rebaseResult_heap_apply env _ left right hr]
  · intro c hc
    simp [rebaseResult_heap_apply env _ left right hr, List.count_eq_zero.mpr hc]
  · simp [rebaseResult]
  · simp [rebaseResult, hp]
  · simp [rebaseResult, hc]
  · intro c
    simp only [rebaseResult_heap_apply env _ left right hr]
    constructor <;> omega

/-- Witness of C10 (amended): the example transactions `txA` and `txB`, twice
with the transaction that `merge_and_rebase_merkle_trees` returns for them. -/
theorem rebase_proofs_frame_witness :
    txA.chunks.chunks.length = txA.chunks.proofs.length ∧
    txB.chunks.chunks.length = txB.chunks.proofs.length ∧
    ∃ s', rebase_proofs exampleEnv
        { heap := exampleHeap, merged := merge_and_rebase_merkle_trees exampleEnv txA txB }
        txA txB = .returned s' ∧
      ∀ c, c ∉ txB.chunks.chunks → s'.heap c = exampleHeap c :=
  ⟨by decide, by decide,
    (rebase_proofs_frame exampleEnv exampleHeap
      (merge_and_rebase_merkle_trees exampleEnv txA txB)
      (merge_and_rebase_merkle_trees exampleEnv txA txB) txA txB
      (by decide) (by decide) rfl rfl).imp fun _ h => ⟨h.1, h.2.2.1⟩⟩

/-! ## Every outcome of `rebase_proofs` -/

theorem loopResult_nil (env : Env) (ldr rdr : Bytes) (left_size : Num)
    (dshift : Nat) (pshift : Num) (s : State) :
    loopResult env ldr rdr left_size dshift pshift [] [] s = s := by
  simp [loopResult]

theorem rebase_loop_eq (env : Env) (ldr rdr : Bytes) (left_size : Num)
    (dshift : Nat) (pshift : Num) (chunks : List ChunkRef) (ps : List Proof) :
    ∀ (i : Nat) (s : State), i ≤ chunks.length →
      rebase_loop env ldr rdr left_size dshift pshift chunks i ps s =
        if i + ps.length ≤ chunks.length then
          .returned (loopResult env ldr rdr left_size dshift pshift
            ((chunks.drop i).take ps.length) (ps.take (chunks.length - i)) s)
        else
          .threw (loopResult env ldr rdr left_size dshift pshift
            ((chunks.drop i).take ps.length) (ps.take (chunks.length - i)) s) := by
  induction ps with
  | nil =>
    intro i s hi
    simp [rebase_loop, loopResult_nil, hi]
  | cons p ps ih =>
    intro i s hi
    rcases Nat.lt_or_ge i chunks.length with hlt | hge
    · have hd : (chunks.drop i).take (ps.length + 1)
          = chunks[i] :: (chunks.drop (i + 1)).take ps.length := by
        rw [List.drop_eq_getElem_cons hlt, List.take_succ_cons]
      have ht : (p :: ps).take (chunks.length - i)
          = p :: ps.take (chunks.length - (i + 1)) := by
        have : chunks.length - i = (chunks.length - (i + 1)) + 1 := by omega
        rw [this, List.take_succ_cons]
      have hcond : (i + (p :: ps).length ≤ chunks.length)
          ↔ (i + 1 + ps.length ≤ chunks.length) := by
        simp only [List.length_cons]
        omega
      rw [rebase_loop, List.getElem?_eq_getElem hlt, rebase_chunk_some]
      simp only [rebase_proof_eq]
      rw [ih (i + 1) _ hlt, List.length_cons, hd, ht]
      by_cases hc : i + 1 + ps.length ≤ chunks.length
      · have hc' : i + (ps.length + 1) ≤ chunks.length := by omega
        simp [hc, hc', loopResult]
      · have hc' : ¬ i + (ps.length + 1) ≤ chunks.length := by omega
        simp [hc, hc', loopResult]
    · have hi' : i = chunks.length := le_antisymm hi hge
      have hnone : chunks[i]? = none := List.getElem?_eq_none (by omega)
      have hc : ¬ i + (p :: ps).length ≤ chunks.length := by
        simp only [List.length_cons]
        omega
      rw [rebase_loop, hnone]
      simp [rebase_chunk, hc, hi', loopResult_nil]

theorem rebase_proofs_eq_outcome (env : Env) (s : State) (left right : Transaction) :
    rebase_proofs env s left right = rebaseOutcome env s left right := by
  unfold rebase_proofs rebaseOutcome
  simp only []
  rw [rebase_loop_eq _ _ _ _ _ _ _ _ 0 _ (Nat.zero_le _)]
  by_cases hl : left.chunks.proofs.length ≤ left.chunks.chunks.length
  · simp only [Nat.zero_add, hl, if_true, List.drop_zero, Nat.sub_zero]
    rw [rebase_loop_eq _ _ _ _ _ _ _ _ 0 _ (Nat.zero_le _)]
    simp only [Nat.zero_add, List.drop_zero, Nat.sub_zero, concatBuffers, List.append_nil]
  · simp only [Nat.zero_add, hl, if_false, List.drop_zero, Nat.sub_zero, concatBuffers,
      List.append_nil]

theorem rebaseOutcome_data (env : Env) (s : State) (left right : Transaction) :
    (rebaseOutcome env s left right).state.merged.data = left.data ++ right.data := by
  unfold rebaseOutcome
  simp only []
  split
  · split <;> simp [Completion.state, loopResult]
  · simp [Completion.state, loopResult]

theorem rebaseOutcome_isReturned (env : Env) (s : State) (left right : Transaction) :
    (rebaseOutcome env s left right).isReturned = true ↔
      left.chunks.proofs.length ≤ left.chunks.chunks.length ∧
      right.chunks.proofs.length ≤ right.chunks.chunks.length := by
  unfold rebaseOutcome
  simp only []
  by_cases hl : left.chunks.proofs.length ≤ left.chunks.chunks.length
  · by_cases hr : right.chunks.proofs.length ≤ right.chunks.chunks.length
    · simp [hl, hr, Completion.isReturned]
    · simp [hl, hr, Completion.isReturned]
  · simp [hl, Completion.isReturned]

/-! ## Folding three trees -/

/-- C11. For trees A, B, C whose chunk and proof lists have equal length, with M1
the transaction returned by `merge_and_rebase_merkle_trees` for A and B and
filled by `rebase_proofs`, and M2 the transaction returned for M1 and C and
filled by `rebase_proofs`: both calls of `rebase_proofs` return, the data of M2
is the data of A, then of B, then of C, and M2 has as many chunks, and as many
proofs, as A, B and C together. -/
theorem fold_data_and_counts (env : Env) (heap : Heap) (A B C : Transaction)
    (hA : A.chunks.chunks.length = A.chunks.proofs.length)
    (hB : B.chunks.chunks.length = B.chunks.proofs.length)
    (hC : C.chunks.chunks.length = C.chunks.proofs.length) :
    ∃ s1 s2,
      rebase_proofs env { heap := heap, merged := merge_and_rebase_merkle_trees env A B }
        A B = .returned s1 ∧
      rebase_proofs env
        { heap := s1.heap, merged := merge_and_rebase_merkle_trees env s1.merged C }
        s1.merged C = .returned s2 ∧
      s2.merged.data = A.data ++ B.data ++ C.data ∧
      s2.merged.chunks.chunks.length =
        A.chunks.chunks.length + B.chunks.chunks.length + C.chunks.chunks.length ∧
      s2.merged.chunks.proofs.length =
        A.chunks.proofs.length + B.chunks.proofs.length + C.chunks.proofs.length := by
  have h1 := rebase_proofs_returned env
    { heap := heap, merged := merge_and_rebase_merkle_trees env A B } A B
    (le_of_eq hA.symm) (le_of_eq hB.symm)
  have hM : (rebaseResult env
      { heap := heap, merged := merge_and_rebase_merkle_trees env A B } A B).merged.chunks.proofs.length
      ≤ (rebaseResult env
      { heap := heap, merged := merge_and_rebase_merkle_trees env A B } A B).merged.chunks.chunks.length := by
    simp [rebaseResult, merge_and_rebase_merkle_trees, hA, hB]
  refine ⟨_, _, h1, rebase_proofs_returned env _ _ C hM (le_of_eq hC.symm), ?_, ?_, ?_⟩
  · simp [rebaseResult]
  · simp [rebaseResult, merge_and_rebase_merkle_trees, hA, hB, hC, Nat.add_assoc]
  · simp [rebaseResult, merge_and_rebase_merkle_trees, Nat.add_assoc]

/-- Witness of C11: the script's three transactions of 474000, 120000 and 524288 bytes. -/
theorem fold_data_and_counts_witness :
    transaction1.chunks.chunks.length = transaction1.chunks.proofs.length ∧
    transaction2.chunks.chunks.length = transaction2.chunks.proofs.length ∧
    transaction3.chunks.chunks.length = transaction3.chunks.proofs.length ∧
    ∃ s1 s2,
      rebase_proofs exampleEnv
        { heap := scriptHeap
          merged := merge_and_rebase_merkle_trees exampleEnv transaction1 transaction2 }
        transaction1 transaction2 = .returned s1 ∧
      rebase_proofs exampleEnv
        { heap := s1.heap
          merged := merge_and_rebase_merkle_trees exampleEnv s1.merged transaction3 }
        s1.merged transaction3 = .returned s2 ∧
      s2.merged.data = transaction1.data ++ transaction2.data ++ transaction3.data ∧
      s2.merged.chunks.chunks.length =
        transaction1.chunks.chunks.length + transaction2.chunks.chunks.length +
          transaction3.chunks.chunks.length ∧
      s2.merged.chunks.proofs.length =
        transaction1.chunks.proofs.length + transaction2.chunks.proofs.length +
          transaction3.chunks.proofs.length :=
  ⟨by decide, by decide, by decide,
    fold_data_and_counts exampleEnv scriptHeap transaction1 transaction2 transaction3
      (by decide) (by decide) (by decide)⟩

/-! ## Lists of different lengths -/

/-- C12, as stated, fails in both parts.  With `txFewProofs` as left tree (two
chunks, one proof) `rebase_proofs` returns without an error.  With
`txFewChunks` as left tree (one chunk, two proofs) it throws, and the merged
transaction, which had no data, no chunk and no proof before the call, then
holds the nine bytes of both trees, one chunk and one proof. -/
theorem rebase_proofs_all_or_nothing_counterexample :
    (txFewProofs.chunks.chunks.length ≠ txFewProofs.chunks.proofs.length ∧
      (rebase_proofs exampleEnv
        { heap := exampleHeap
          merged := merge_and_rebase_merkle_trees exampleEnv txFewProofs txB }
        txFewProofs txB).isReturned = true) ∧
    (txFewChunks.chunks.chunks.length ≠ txFewChunks.chunks.proofs.length ∧
      (merge_and_rebase_merkle_trees exampleEnv txFewChunks txB).data = [] ∧
      (merge_and_rebase_merkle_trees exampleEnv txFewChunks txB).chunks.chunks = [] ∧
      (merge_and_rebase_merkle_trees exampleEnv txFewChunks txB).chunks.proofs = [] ∧
      (rebase_proofs exampleEnv
        { heap := exampleHeap
          merged := merge_and_rebase_merkle_trees exampleEnv txFewChunks txB }
        txFewChunks txB).isReturned = false ∧
      (rebase_proofs exampleEnv
        { heap := exampleHeap
          merged := merge_and_rebase_merkle_trees exampleEnv txFewChunks txB }
        txFewChunks txB).state.merged.data = [1, 2, 3, 4, 5, 6, 7, 8, 9] ∧
      (rebase_proofs exampleEnv
        { heap := exampleHeap
          merged := merge_and_rebase_merkle_trees exampleEnv txFewChunks txB }
        txFewChunks txB).state.merged.chunks.chunks = [0] ∧
      (rebase_proofs exampleEnv
        { heap := exampleHeap
          merged := merge_and_rebase_merkle_trees exampleEnv txFewChunks txB }
        txFewChunks txB).state.merged.chunks.proofs.length = 1) := by
  decide

/-- C12, amended.  `rebase_proofs` returns exactly when neither in left nor in
right the proof list is longer than the chunk list, and throws otherwise; chunks
beyond the number of proofs are no error.  In every outcome the data of merged
has been set to the left data followed by the right data.  When it throws in
the left tree, all chunks of left and as many rebased proofs have been pushed;
when it throws in the right tree, the chunks and proofs of left that the left
loop handled, all chunks of right and as many rebased proofs have been pushed.
Merged is not restored. -/
theorem rebase_proofs_outcome (env : Env) (s : State) (left right : Transaction) :
    ((rebase_proofs env s left right).isReturned = true ↔
      left.chunks.proofs.length ≤ left.chunks.chunks.length ∧
      right.chunks.proofs.length ≤ right.chunks.chunks.length) ∧
    (rebase_proofs env s left right).state.merged.data = left.data ++ right.data ∧
    (left.chunks.chunks.length < left.chunks.proofs.length →
      (rebase_proofs env s left right).state.merged.chunks.chunks =
        s.merged.chunks.chunks ++ left.chunks.chunks ∧
      (rebase_proofs env s left right).state.merged.chunks.proofs.length =
        s.merged.chunks.proofs.length + left.chunks.chunks.length) ∧
    (left.chunks.proofs.length ≤ left.chunks.chunks.length →
      right.chunks.chunks.length < right.chunks.proofs.length →
      (rebase_proofs env s left right).state.merged.chunks.chunks =
        s.merged.chunks.chunks ++
          (left.chunks.chunks.take left.chunks.proofs.length ++ right.chunks.chunks) ∧
      (rebase_proofs env s left right).state.merged.chunks.proofs.length =
        s.merged.chunks.proofs.length +
          (left.chunks.proofs.length + right.chunks.chunks.length)) := by
  rw [rebase_proofs_eq_outcome]
  refine ⟨rebaseOutcome_isReturned env s left right, rebaseOutcome_data env s left right,
    ?_, ?_⟩
  · intro hl
    have hl' : ¬ left.chunks.proofs.length ≤ left.chunks.chunks.length := by omega
    simp [rebaseOutcome, hl', Completion.state, loopResult, List.take_of_length_le (le_of_lt hl),
      le_of_lt hl]
  · intro hl hr
    have hr' : ¬ right.chunks.proofs.length ≤ right.chunks.chunks.length := by omega
    simp [rebaseOutcome, hl, hr', Completion.state, loopResult,
      List.take_of_length_le (le_of_lt hr), List.take_of_length_le hl, le_of_lt hr]

/-! ## The data buffer -/

/-- C13. For every merged, left and right, in the state in which
`rebase_proofs` ends the data of merged is the data of left followed by the data
of right, whatever it was before: its length is the sum of the two lengths, the
byte at a position `k` of left is at position `k`, and the byte at a position
`k` of right is at position `left.data.length + k`. -/
theorem rebase_proofs_data (env : Env) (s : State) (left right : Transaction) :
    (rebase_proofs env s left right).state.merged.data = left.data ++ right.data ∧
    (rebase_proofs env s left right).state.merged.data.length =
      left.data.length + right.data.length ∧
    (∀ k (hk : k < left.data.length),
      (rebase_proofs env s left right).state.merged.data[k]? = some left.data[k]) ∧
    (∀ k (hk : k < right.data.length),
      (rebase_proofs env s left right).state.merged.data[left.data.length + k]? =
        some right.data[k]) := by
  have h : (rebase_proofs env s left right).state.merged.data = left.data ++ right.data := by
    rw [rebase_proofs_eq_outcome]
    exact rebaseOutcome_data env s left right
  refine ⟨h, by simp [h], ?_, ?_⟩
  · intro k hk
    rw [h, List.getElem?_append_left hk, List.getElem?_eq_getElem hk]
  · intro k hk
    rw [h, List.getElem?_append_right (by omega)]
    simp [List.getElem?_eq_getElem hk]

/-! ## Declared size and data length -/

theorem rebaseOutcome_frame (env : Env) (s : State) (left right : Transaction) :
    (rebaseOutcome env s left right).state.merged.data_size = s.merged.data_size ∧
    (rebaseOutcome env s left right).state.merged.data_root = s.merged.data_root ∧
    (rebaseOutcome env s left right).state.merged.chunks.data_root =
      s.merged.chunks.data_root ∧
    (rebaseOutcome env s left right).state.merged.last_tx = s.merged.last_tx ∧
    (rebaseOutcome env s left right).state.merged.reward = s.merged.reward := by
  unfold rebaseOutcome
  simp only []
  split
  · split <;> simp [Completion.state, loopResult]
  · simp [Completion.state, loopResult]

theorem round_to_chunk_size_eq_self_iff (n : Nat) :
    round_to_chunk_size n = n ↔ n % MAX_CHUNK_SIZE = 0 := by
  unfold round_to_chunk_size MAX_CHUNK_SIZE
  omega

/-- C14. For left and right trees whose `data_size` is the numeral of the length
of their data buffer, in the state in which `rebase_proofs` ends on the
transaction returned by `merge_and_rebase_merkle_trees`: the declared
`data_size` of merged is `round_to_chunk_size(L) + R`, as long as that is a
safe integer (below `2^53`, as it is for the lengths of buffers that exist), and
its data holds `L + R` bytes, for the data lengths `L` of left and `R` of right;
the difference is `round_to_chunk_size(L) - L`, which is below 262144; the two
are equal exactly when `L` is a multiple of 262144, and otherwise the declared
size is larger. -/
theorem declared_size_vs_data_length (env : Env) (heap : Heap) (left right : Transaction)
    (hl : parseInt left.data_size = some (Dbl.ofNat left.data.length))
    (hr : parseInt right.data_size = some (Dbl.ofNat right.data.length)) :
    (round_to_chunk_size left.data.length + right.data.length < 9007199254740992 →
      parseInt (rebase_proofs env
          { heap := heap, merged := merge_and_rebase_merkle_trees env left right }
          left right).state.merged.data_size =
        some (Dbl.ofNat (round_to_chunk_size left.data.length + right.data.length))) ∧
    (rebase_proofs env
        { heap := heap, merged := merge_and_rebase_merkle_trees env left right }
        left right).state.merged.data.length = left.data.length + right.data.length ∧
    (round_to_chunk_size left.data.length + right.data.length) -
        (left.data.length + right.data.length) =
      round_to_chunk_size left.data.length - left.data.length ∧
    round_to_chunk_size left.data.length - left.data.length < 262144 ∧
    (round_to_chunk_size left.data.length + right.data.length =
        left.data.length + right.data.length ↔ left.data.length % 262144 = 0) ∧
    (left.data.length % 262144 ≠ 0 →
      left.data.length + right.data.length <
        round_to_chunk_size left.data.length + right.data.length) := by
  have h1 := le_round_to_chunk_size left.data.length
  have h2 := round_to_chunk_size_lt left.data.length
  have h3 := round_to_chunk_size_eq_self_iff left.data.length
  simp only [MAX_CHUNK_SIZE] at h2 h3
  rw [rebase_proofs_eq_outcome]
  refine ⟨?_, ?_, by omega, by omega, by omega, by omega⟩
  · intro hb
    have ha : left.data.length < 9007199254740992 := by omega
    rw [(rebaseOutcome_frame env _ left right).1]
    simp only [merge_and_rebase_merkle_trees, hl, hr, roundNum_ofNat _ ha,
      Num.add_ofNat _ _ hb]
    exact parseInt_numToString _ hb
  · rw [rebaseOutcome_data]
    simp

/-- Witness of C14: the script's files of 474000 and 120000 bytes: declared size
644288, data length 594000. -/
theorem declared_size_vs_data_length_witness :
    parseInt transaction1.data_size = some (Dbl.ofNat transaction1.data.length) ∧
    parseInt transaction2.data_size = some (Dbl.ofNat transaction2.data.length) ∧
    transaction1.data.length = 474000 ∧
    transaction2.data.length = 120000 ∧
    round_to_chunk_size 474000 + 120000 = 644288 ∧
    474000 + 120000 = 594000 ∧
    parseInt (rebase_proofs exampleEnv
        { heap := scriptHeap
          merged := merge_and_rebase_merkle_trees exampleEnv transaction1 transaction2 }
        transaction1 transaction2).state.merged.data_size =
      some (Dbl.ofNat (round_to_chunk_size transaction1.data.length +
        transaction2.data.length)) ∧
    (rebase_proofs exampleEnv
        { heap := scriptHeap
          merged := merge_and_rebase_merkle_trees exampleEnv transaction1 transaction2 }
        transaction1 transaction2).state.merged.data.length =
      transaction1.data.length + transaction2.data.length :=
  have e1 : transaction1.data.length = 474000 := List.length_replicate 474000 (1 : Byte)
  have e2 : transaction2.data.length = 120000 := List.length_replicate 120000 (2 : Byte)
  have p1 : parseInt transaction1.data_size = some (Dbl.ofNat transaction1.data.length) :=
    (by decide : parseInt transaction1.data_size = some (Dbl.ofNat 474000)).trans
      (congrArg (fun n => some (Dbl.ofNat n)) e1.symm)
  have p2 : parseInt transaction2.data_size = some (Dbl.ofNat transaction2.data.length) :=
    (by decide : parseInt transaction2.data_size = some (Dbl.ofNat 120000)).trans
      (congrArg (fun n => some (Dbl.ofNat n)) e2.symm)
  have hb : round_to_chunk_size transaction1.data.length + transaction2.data.length <
      9007199254740992 := by
    rw [e1, e2]
    decide
  ⟨p1, p2, e1, e2, by decide, by decide,
    (declared_size_vs_data_length exampleEnv scriptHeap transaction1 transaction2 p1 p2).1 hb,
    (declared_size_vs_data_length exampleEnv scriptHeap transaction1 transaction2 p1 p2).2.1⟩

/-! ## The root depends on two roots and one size -/

/-- C16. The root of the transaction returned by `merge_and_rebase_merkle_trees`
is determined by the root of left, the root of right and the `data_size` of
left: two calls that agree on these three, with the same library functions,
return the same root, in `chunks.data_root` and in `data_root`, whatever the
other fields of the four transactions and whatever anchor and price the
network gives. -/
theorem merge_root_determined (env1 env2 : Env) (left1 right1 left2 right2 : Transaction)
    (hh : env1.hash = env2.hash)
    (hi : env1.intToBuffer = env2.intToBuffer)
    (hb : env1.bufferTob64Url = env2.bufferTob64Url)
    (hl : left1.chunks.data_root = left2.chunks.data_root)
    (hr : right1.chunks.data_root = right2.chunks.data_root)
    (hs : left1.data_size = left2.data_size) :
    (merge_and_rebase_merkle_trees env1 left1 right1).chunks.data_root =
      (merge_and_rebase_merkle_trees env2 left2 right2).chunks.data_root ∧
    (merge_and_rebase_merkle_trees env1 left1 right1).data_root =
      (merge_and_rebase_merkle_trees env2 left2 right2).data_root := by
  simp [merge_and_rebase_merkle_trees, hh, hi, hb, hl, hr, hs]

/-- Witness of C16: `txA` with `txB` under `exampleEnv`, and `txFewProofs` with
`txB7` under `otherEnv`: other proofs on the left, another size and other data
on the right, another anchor and price. -/
theorem merge_root_determined_witness :
    exampleEnv.hash = otherEnv.hash ∧
    exampleEnv.intToBuffer = otherEnv.intToBuffer ∧
    exampleEnv.bufferTob64Url = otherEnv.bufferTob64Url ∧
    txA.chunks.data_root = txFewProofs.chunks.data_root ∧
    txB.chunks.data_root = txB7.chunks.data_root ∧
    txA.data_size = txFewProofs.data_size ∧
    txB.data_size ≠ txB7.data_size ∧
    exampleEnv.anchor ≠ otherEnv.anchor ∧
    (merge_and_rebase_merkle_trees exampleEnv txA txB).chunks.data_root =
      (merge_and_rebase_merkle_trees otherEnv txFewProofs txB7).chunks.data_root ∧
    (merge_and_rebase_merkle_trees exampleEnv txA txB).data_root =
      (merge_and_rebase_merkle_trees otherEnv txFewProofs txB7).data_root :=
  ⟨rfl, rfl, rfl, by decide, by decide, by decide, by decide, by decide,
    merge_root_determined exampleEnv otherEnv txA txB txFewProofs txB7 rfl rfl rfl
      (by decide) (by decide) (by decide)⟩

/-! ## Multiples of the chunk size -/

/-- C17. `round_to_chunk_size` returns every multiple of 262144 unchanged, zero
included; it is idempotent; and it is monotone. -/
theorem round_to_chunk_size_fixed :
    (∀ k : Nat, round_to_chunk_size (k * 262144) = k * 262144) ∧
    round_to_chunk_size 0 = 0 ∧
    (∀ n : Nat, round_to_chunk_size (round_to_chunk_size n) = round_to_chunk_size n) ∧
    (∀ m n : Nat, m ≤ n → round_to_chunk_size m ≤ round_to_chunk_size n) := by
  refine ⟨?_, by decide, ?_, ?_⟩
  · intro k
    unfold round_to_chunk_size MAX_CHUNK_SIZE
    omega
  · intro n
    unfold round_to_chunk_size MAX_CHUNK_SIZE
    omega
  · intro m n h
    unfold round_to_chunk_size MAX_CHUNK_SIZE
    omega

/-! ## The fields of merged that `rebase_proofs` leaves alone -/

theorem rebaseOutcome_heap_apply (env : Env) (s : State) (left right : Transaction)
    (c : ChunkRef) :
    ∃ k, k ≤ right.chunks.chunks.count c ∧
      (rebaseOutcome env s left right).state.heap c =
        { dataHash := (s.heap c).dataHash
          minByteRange := k * left.data.length + (s.heap c).minByteRange
          maxByteRange := k * left.data.length + (s.heap c).maxByteRange } := by
  have hk : (right.chunks.chunks.take right.chunks.proofs.length).count c ≤
      right.chunks.chunks.count c := (List.take_sublist _ _).count_le c
  unfold rebaseOutcome
  simp only []
  split
  · refine ⟨_, hk, ?_⟩
    split <;>
      simp [Completion.state, loopResult, foldl_shiftChunk_zero, foldl_shiftChunk_apply]
  · refine ⟨0, Nat.zero_le _, ?_⟩
    simp [Completion.state, loopResult, foldl_shiftChunk_zero]

/-- C18, as stated, fails: `rebase_proofs` writes more than the data, the chunk
list and the proof list of merged.  On `txA` as left and `txC` as right, with
the transaction `merge_and_rebase_merkle_trees` returns for them as merged, the
call returns and the size and the roots of merged are as before, but the chunk
object of the right tree `txC`, the range from 0 to 3 before the call, has the
range from 5 to 8 after it: `txC`, read again, no longer describes its own 3
bytes. -/
theorem rebase_proofs_merged_frame_counterexample :
    txC.chunks.chunks = [3] ∧
    txC.data.length = 3 ∧
    rangesOf exampleHeap txC.chunks.chunks = [(0, 3)] ∧
    (rebase_proofs exampleEnv
      { heap := exampleHeap, merged := merge_and_rebase_merkle_trees exampleEnv txA txC }
      txA txC).isReturned = true ∧
    (rebase_proofs exampleEnv
      { heap := exampleHeap, merged := merge_and_rebase_merkle_trees exampleEnv txA txC }
      txA txC).state.merged.data_size =
        (merge_and_rebase_merkle_trees exampleEnv txA txC).data_size ∧
    (rebase_proofs exampleEnv
      { heap := exampleHeap, merged := merge_and_rebase_merkle_trees exampleEnv txA txC }
      txA txC).state.merged.chunks.data_root =
        (merge_and_rebase_merkle_trees exampleEnv txA txC).chunks.data_root ∧
    rangesOf
      (rebase_proofs exampleEnv
        { heap := exampleHeap, merged := merge_and_rebase_merkle_trees exampleEnv txA txC }
        txA txC).state.heap
      txC.chunks.chunks = [(5, 8)] ∧
    (rebase_proofs exampleEnv
      { heap := exampleHeap, merged := merge_and_rebase_merkle_trees exampleEnv txA txC }
      txA txC).state.heap 3 ≠ exampleHeap 3 := by
  decide

/-- C18, amended.  What `rebase_proofs` writes is the data, the chunk list and
the proof list of merged, and the byte ranges of chunk objects of right, nothing
else.  In whatever state the call ends: the `data_size`, the roots (`data_root`
and `chunks.data_root`), the anchor and the reward of merged are what they were
before the call; a chunk object that is not in the chunk list of right is as
before; every chunk object keeps its `dataHash`, and its `minByteRange` and
`maxByteRange` have both grown by `k` times the length of the left data buffer,
for a `k` that is at most the number of occurrences of the object in the chunk
list of right.  And the data, the chunk list and the proof list of merged, the
chunk objects and the outcome are the same when the call is made on a merged
transaction with another `data_size` and other roots. -/
theorem rebase_proofs_merged_frame (env : Env) (s : State) (left right : Transaction) :
    (rebase_proofs env s left right).state.merged.data_size = s.merged.data_size ∧
    (rebase_proofs env s left right).state.merged.data_root = s.merged.data_root ∧
    (rebase_proofs env s left right).state.merged.chunks.data_root =
      s.merged.chunks.data_root ∧
    (rebase_proofs env s left right).state.merged.last_tx = s.merged.last_tx ∧
    (rebase_proofs env s left right).state.merged.reward = s.merged.reward ∧
    (∀ c, c ∉ right.chunks.chunks →
      (rebase_proofs env s left right).state.heap c = s.heap c) ∧
    (∀ c, ∃ k, k ≤ right.chunks.chunks.count c ∧
      ((rebase_proofs env s left right).state.heap c).dataHash = (s.heap c).dataHash ∧
      ((rebase_proofs env s left right).state.heap c).minByteRange =
        k * left.data.length + (s.heap c).minByteRange ∧
      ((rebase_proofs env s left right).state.heap c).maxByteRange =
        k * left.data.length + (s.heap c).maxByteRange) ∧
    ∀ (size root : String) (rootBytes : Bytes),
      (rebase_proofs env
        { s with merged := { s.merged with
            data_size := size, data_root := root
            chunks := { s.merged.chunks with data_root := rootBytes } } }
        left right).state.merged.data = (rebase_proofs env s left right).state.merged.data ∧
      (rebase_proofs env
        { s with merged := { s.merged with
            data_size := size, data_root := root
            chunks := { s.merged.chunks with data_root := rootBytes } } }
        left right).state.merged.chunks.chunks =
          (rebase_proofs env s left right).state.merged.chunks.chunks ∧
      (rebase_proofs env
        { s with merged := { s.merged with
            data_size := size, data_root := root
            chunks := { s.merged.chunks with data_root := rootBytes } } }
        left right).state.merged.chunks.proofs =
          (rebase_proofs env s left right).state.merged.chunks.proofs ∧
      (rebase_proofs env
        { s with merged := { s.merged with
            data_size := size, data_root := root
            chunks := { s.merged.chunks with data_root := rootBytes } } }
        left right).state.heap = (rebase_proofs env s left right).state.heap ∧
      (rebase_proofs env
        { s with merged := { s.merged with
            data_size := size, data_root := root
            chunks := { s.merged.chunks with data_root := rootBytes } } }
        left right).isReturned = (rebase_proofs env s left right).isReturned := by
  obtain ⟨h1, h2, h3, h4, h5⟩ := rebaseOutcome_frame env s left right
  simp only [rebase_proofs_eq_outcome]
  refine ⟨h1, h2, h3, h4, h5, ?_, ?_, ?_⟩
  · intro c hc
    obtain ⟨k, hk, he⟩ := rebaseOutcome_heap_apply env s left right c
    have hk0 : k = 0 := by
      have := List.count_eq_zero.mpr hc
      omega
    rw [he, hk0]
    simp
  · intro c
    obtain ⟨k, hk, he⟩ := rebaseOutcome_heap_apply env s left right c
    exact ⟨k, hk, by rw [he], by rw [he], by rw [he]⟩
  · intro size root rootBytes
    unfold rebaseOutcome
    simp only []
    split
    · split <;> simp [Completion.state, Completion.isReturned, loopResult]
    · simp [Completion.state, Completion.isReturned, loopResult]

/-! ## Associativity in proof space -/

theorem round_to_chunk_size_add (a b : Nat) :
    round_to_chunk_size (round_to_chunk_size a + b) =
      round_to_chunk_size a + round_to_chunk_size b := by
  unfold round_to_chunk_size MAX_CHUNK_SIZE
  omega

theorem rebaseResult_offsets (env : Env) (s : State) (left right : Transaction) :
    (rebaseResult env s left right).merged.chunks.proofs.map Proof.offset =
      s.merged.chunks.proofs.map Proof.offset ++
        (left.chunks.proofs.map Proof.offset ++
          (right.chunks.proofs.map Proof.offset).map
            (Num.add (roundNum (parseInt left.data_size)))) := by
  simp only [rebaseResult, List.map_append, List.map_map]
  congr 2
  apply List.map_congr_left
  intro p _
  simp [rebasedProof, Num.zero_add]

theorem merge_data_size_eq (env : Env) (left right : Transaction) (a b : Nat)
    (ha : parseInt left.data_size = some (Dbl.ofNat a))
    (hb : parseInt right.data_size = some (Dbl.ofNat b))
    (hs : round_to_chunk_size a + b < 9007199254740992) :
    (merge_and_rebase_merkle_trees env left right).data_size =
      numToString (some (Dbl.ofNat (round_to_chunk_size a + b))) := by
  have h := le_round_to_chunk_size a
  simp only [merge_and_rebase_merkle_trees, ha, hb,
    roundNum_ofNat a (by omega), Num.add_ofNat _ _ hs]

/-- C15, as stated, fails on two inputs.  First, above the safe integers: for
`txMaxSafe`, `txOne` and `txOther`, of the sizes `9007199254740991`, `1` and
`1`, merging the first two (`stateMaxOne`) and then the third gives the
`data_size` `9007199254740992` and the offset `9007199254740992` for the leaf
of the third, and merging the last two (`stateOneOther`) and then the first
with them gives the `data_size` `9007199255003136` and that offset for the leaf
of the third.  Second, with safe sizes but a proof offset that no safe integer
holds: for `txC`, `txB` and `txOneFar`, whose leaf has the offset `2^71`, the
first grouping adds `524288` to it in one sum, which is exact, and the second
adds `262144` twice, each sum being rounded back to `2^71`. -/
theorem merge_associative_counterexample :
    (isDecimal txMaxSafe.data_size ∧ isDecimal txOne.data_size ∧
      isDecimal txOther.data_size ∧
      (rebase_proofs exampleEnv
        { heap := exampleHeap
          merged := merge_and_rebase_merkle_trees exampleEnv txMaxSafe txOne }
        txMaxSafe txOne).isReturned = true ∧
      (rebase_proofs exampleEnv
        { heap := exampleHeap
          merged := merge_and_rebase_merkle_trees exampleEnv txOne txOther }
        txOne txOther).isReturned = true ∧
      (rebase_proofs exampleEnv
        { heap := stateMaxOne.heap
          merged := merge_and_rebase_merkle_trees exampleEnv stateMaxOne.merged txOther }
        stateMaxOne.merged txOther).isReturned = true ∧
      (rebase_proofs exampleEnv
        { heap := stateOneOther.heap
          merged := merge_and_rebase_merkle_trees exampleEnv txMaxSafe stateOneOther.merged }
        txMaxSafe stateOneOther.merged).isReturned = true ∧
      (rebase_proofs exampleEnv
        { heap := stateMaxOne.heap
          merged := merge_and_rebase_merkle_trees exampleEnv stateMaxOne.merged txOther }
        stateMaxOne.merged txOther).state.merged.data_size = "9007199254740992" ∧
      (rebase_proofs exampleEnv
        { heap := stateOneOther.heap
          merged := merge_and_rebase_merkle_trees exampleEnv txMaxSafe stateOneOther.merged }
        txMaxSafe stateOneOther.merged).state.merged.data_size = "9007199255003136" ∧
      (rebase_proofs exampleEnv
        { heap := stateMaxOne.heap
          merged := merge_and_rebase_merkle_trees exampleEnv stateMaxOne.merged txOther }
        stateMaxOne.merged txOther).state.merged.chunks.proofs.map
          (fun p => p.offset.map Dbl.mag) =
        [some 9007199254740992, some 9007199254740992] ∧
      (rebase_proofs exampleEnv
        { heap := stateOneOther.heap
          merged := merge_and_rebase_merkle_trees exampleEnv txMaxSafe stateOneOther.merged }
        txMaxSafe stateOneOther.merged).state.merged.chunks.proofs.map
          (fun p => p.offset.map Dbl.mag) =
        [some 9007199254740992, some 9007199255003136]) ∧
    (isDecimal txC.data_size ∧ isDecimal txB.data_size ∧ isDecimal txOneFar.data_size ∧
      txOneFar.chunks.proofs.map (fun p => p.offset.map Dbl.mag) =
        [some 2361183241434822606848] ∧
      (rebase_proofs exampleEnv
        { heap := exampleHeap, merged := merge_and_rebase_merkle_trees exampleEnv txC txB }
        txC txB).isReturned = true ∧
      (rebase_proofs exampleEnv
        { heap := exampleHeap
          merged := merge_and_rebase_merkle_trees exampleEnv txB txOneFar }
        txB txOneFar).isReturned = true ∧
      (rebase_proofs exampleEnv
        { heap := stateCB.heap
          merged := merge_and_rebase_merkle_trees exampleEnv stateCB.merged txOneFar }
        stateCB.merged txOneFar).isReturned = true ∧
      (rebase_proofs exampleEnv
        { heap := stateBFar.heap
          merged := merge_and_rebase_merkle_trees exampleEnv txC stateBFar.merged }
        txC stateBFar.merged).isReturned = true ∧
      (rebase_proofs exampleEnv
        { heap := stateCB.heap
          merged := merge_and_rebase_merkle_trees exampleEnv stateCB.merged txOneFar }
        stateCB.merged txOneFar).state.merged.data_size =
      (rebase_proofs exampleEnv
        { heap := stateBFar.heap
          merged := merge_and_rebase_merkle_trees exampleEnv txC stateBFar.merged }
        txC stateBFar.merged).state.merged.data_size ∧
      (rebase_proofs exampleEnv
        { heap := stateCB.heap
          merged := merge_and_rebase_merkle_trees exampleEnv stateCB.merged txOneFar }
        stateCB.merged txOneFar).state.merged.chunks.proofs.map
          (fun p => p.offset.map Dbl.mag) =
        [some 2, some 262147, some 2361183241434823131136] ∧
      (rebase_proofs exampleEnv
        { heap := stateBFar.heap
          merged := merge_and_rebase_merkle_trees exampleEnv txC stateBFar.merged }
        txC stateBFar.merged).state.merged.chunks.proofs.map
          (fun p => p.offset.map Dbl.mag) =
        [some 2, some 262147, some 2361183241434822606848]) := by
  decide

/-- C15, amended.  For trees A, B, C whose `data_size` fields are decimal numerals
`a`, `b`, `c`, whose chunk and proof lists have equal length, such that
`round_to_chunk_size (round_to_chunk_size a + b) + c` is a safe integer (below
`2^53`) and every proof offset `o` of C is a non-negative integer with
`round_to_chunk_size a + round_to_chunk_size b + o` a safe integer: merging and
rebasing A with B and the result with C, and merging and rebasing B with C and
A with the result, all four calls of `rebase_proofs` return, and the two final
transactions have the same `data_size` and, leaf by leaf, the same proof
offsets; and `round_to_chunk_size (round_to_chunk_size a + b)` is
`round_to_chunk_size a + round_to_chunk_size b` for all `a` and `b`. -/
theorem merge_associative (env : Env) (heap : Heap) (A B C : Transaction)
    (hA : A.chunks.chunks.length = A.chunks.proofs.length)
    (hB : B.chunks.chunks.length = B.chunks.proofs.length)
    (hC : C.chunks.chunks.length = C.chunks.proofs.length)
    (dA : isDecimal A.data_size) (dB : isDecimal B.data_size) (dC : isDecimal C.data_size)
    (hsafe : round_to_chunk_size (round_to_chunk_size (decimalValue A.data_size) +
      decimalValue B.data_size) + decimalValue C.data_size < 9007199254740992)
    (hoff : ∀ p ∈ C.chunks.proofs, ∃ o, p.offset = some (Dbl.ofNat o) ∧
      round_to_chunk_size (decimalValue A.data_size) +
        round_to_chunk_size (decimalValue B.data_size) + o < 9007199254740992) :
    (∃ s1 s2 t1 t2,
      rebase_proofs env { heap := heap, merged := merge_and_rebase_merkle_trees env A B }
        A B = .returned s1 ∧
      rebase_proofs env
        { heap := s1.heap, merged := merge_and_rebase_merkle_trees env s1.merged C }
        s1.merged C = .returned s2 ∧
      rebase_proofs env { heap := heap, merged := merge_and_rebase_merkle_trees env B C }
        B C = .returned t1 ∧
      rebase_proofs env
        { heap := t1.heap, merged := merge_and_rebase_merkle_trees env A t1.merged }
        A t1.merged = .returned t2 ∧
      s2.merged.data_size = t2.merged.data_size ∧
      s2.merged.chunks.proofs.map Proof.offset = t2.merged.chunks.proofs.map Proof.offset) ∧
    ∀ a b : Nat, round_to_chunk_size (round_to_chunk_size a + b) =
      round_to_chunk_size a + round_to_chunk_size b := by
  refine ⟨?_, round_to_chunk_size_add⟩
  have pA := parseInt_of_isDecimal _ dA
  have pB := parseInt_of_isDecimal _ dB
  have pC := parseInt_of_isDecimal _ dC
  have radd := round_to_chunk_size_add (decimalValue A.data_size) (decimalValue B.data_size)
  have gA := le_round_to_chunk_size (decimalValue A.data_size)
  have gB := le_round_to_chunk_size (decimalValue B.data_size)
  have bAB : round_to_chunk_size (decimalValue A.data_size) + decimalValue B.data_size <
      9007199254740992 := by
    have := le_round_to_chunk_size
      (round_to_chunk_size (decimalValue A.data_size) + decimalValue B.data_size)
    omega
  have bBC : round_to_chunk_size (decimalValue B.data_size) + decimalValue C.data_size <
      9007199254740992 := by omega
  have bA : decimalValue A.data_size < 9007199254740992 := by omega
  have bB : decimalValue B.data_size < 9007199254740992 := by omega
  have hs1 := rebase_proofs_returned env
    { heap := heap, merged := merge_and_rebase_merkle_trees env A B } A B
    (le_of_eq hA.symm) (le_of_eq hB.symm)
  have ht1 := rebase_proofs_returned env
    { heap := heap, merged := merge_and_rebase_merkle_trees env B C } B C
    (le_of_eq hB.symm) (le_of_eq hC.symm)
  have hM : (rebaseResult env
      { heap := heap, merged := merge_and_rebase_merkle_trees env A B } A B).merged.chunks.proofs.length
      ≤ (rebaseResult env
      { heap := heap, merged := merge_and_rebase_merkle_trees env A B } A B).merged.chunks.chunks.length := by
    simp [rebaseResult, merge_and_rebase_merkle_trees, hA, hB]
  have hN : (rebaseResult env
      { heap := heap, merged := merge_and_rebase_merkle_trees env B C } B C).merged.chunks.proofs.length
      ≤ (rebaseResult env
      { heap := heap, merged := merge_and_rebase_merkle_trees env B C } B C).merged.chunks.chunks.length := by
    simp [rebaseResult, merge_and_rebase_merkle_trees, hB, hC]
  have sizeM : parseInt (rebaseResult env
      { heap := heap, merged := merge_and_rebase_merkle_trees env A B } A B).merged.data_size
      = some (Dbl.ofNat (round_to_chunk_size (decimalValue A.data_size) +
          decimalValue B.data_size)) := by
    have : (rebaseResult env
        { heap := heap, merged := merge_and_rebase_merkle_trees env A B } A B).merged.data_size
        = (merge_and_rebase_merkle_trees env A B).data_size := rfl
    rw [this, merge_data_size_eq env A B _ _ pA pB bAB]
    exact parseInt_numToString _ bAB
  have sizeN : parseInt (rebaseResult env
      { heap := heap, merged := merge_and_rebase_merkle_trees env B C } B C).merged.data_size
      = some (Dbl.ofNat (round_to_chunk_size (decimalValue B.data_size) +
          decimalValue C.data_size)) := by
    have : (rebaseResult env
        { heap := heap, merged := merge_and_rebase_merkle_trees env B C } B C).merged.data_size
        = (merge_and_rebase_merkle_trees env B C).data_size := rfl
    rw [this, merge_data_size_eq env B C _ _ pB pC bBC]
    exact parseInt_numToString _ bBC
  refine ⟨_, _, _, _, hs1, rebase_proofs_returned env _ _ C hM (le_of_eq hC.symm), ht1,
    rebase_proofs_returned env _ A _ (le_of_eq hA.symm) hN, ?_, ?_⟩
  · have e1 : ∀ (h : Heap) (m l r : Transaction),
        (rebaseResult env { heap := h, merged := m } l r).merged.data_size = m.data_size :=
      fun _ _ _ _ => rfl
    rw [e1, e1, merge_data_size_eq env _ C _ _ sizeM pC hsafe,
      merge_data_size_eq env A _ _ _ pA sizeN (by omega), radd, Nat.add_assoc]
  · have nil : ∀ l r : Transaction,
        (merge_and_rebase_merkle_trees env l r).chunks.proofs = [] := fun _ _ => rfl
    simp only [rebaseResult_offsets, nil, List.map_nil, List.nil_append, List.map_append,
      List.map_map, sizeM, pA, pB, roundNum_ofNat _ bA, roundNum_ofNat _ bB,
      roundNum_ofNat _ bAB, List.append_assoc]
    refine congrArg _ (congrArg _ ?_)
    apply List.map_congr_left
    intro p hp
    obtain ⟨o, ho, hb⟩ := hoff p hp
    simp only [Function.comp, ho, radd]
    rw [Num.add_ofNat _ _ (by omega), Num.add_ofNat _ _ (by omega),
      Num.add_ofNat _ _ (by omega), Nat.add_assoc]

/-- Witness of C15 (amended): the example transactions `txA`, `txB` and `txC`. -/
theorem merge_associative_witness :
    txA.chunks.chunks.length = txA.chunks.proofs.length ∧
    txB.chunks.chunks.length = txB.chunks.proofs.length ∧
    txC.chunks.chunks.length = txC.chunks.proofs.length ∧
    isDecimal txA.data_size ∧ isDecimal txB.data_size ∧ isDecimal txC.data_size ∧
    round_to_chunk_size (round_to_chunk_size (decimalValue txA.data_size) +
      decimalValue txB.data_size) + decimalValue txC.data_size < 9007199254740992 ∧
    (∀ p ∈ txC.chunks.proofs, ∃ o, p.offset = some (Dbl.ofNat o) ∧
      round_to_chunk_size (decimalValue txA.data_size) +
        round_to_chunk_size (decimalValue txB.data_size) + o < 9007199254740992) ∧
    ∃ s1 s2 t1 t2,
      rebase_proofs exampleEnv
        { heap := exampleHeap, merged := merge_and_rebase_merkle_trees exampleEnv txA txB }
        txA txB = .returned s1 ∧
      rebase_proofs exampleEnv
        { heap := s1.heap, merged := merge_and_rebase_merkle_trees exampleEnv s1.merged txC }
        s1.merged txC = .returned s2 ∧
      rebase_proofs exampleEnv
        { heap := exampleHeap, merged := merge_and_rebase_merkle_trees exampleEnv txB txC }
        txB txC = .returned t1 ∧
      rebase_proofs exampleEnv
        { heap := t1.heap, merged := merge_and_rebase_merkle_trees exampleEnv txA t1.merged }
        txA t1.merged = .returned t2 ∧
      s2.merged.data_size = t2.merged.data_size ∧
      s2.merged.chunks.proofs.map Proof.offset = t2.merged.chunks.proofs.map Proof.offset :=
  have hoff : ∀ p ∈ txC.chunks.proofs, ∃ o, p.offset = some (Dbl.ofNat o) ∧
      round_to_chunk_size (decimalValue txA.data_size) +
        round_to_chunk_size (decimalValue txB.data_size) + o < 9007199254740992 := by
    intro p hp
    simp only [txC, List.mem_singleton] at hp
    subst hp
    exact ⟨2, rfl, by decide⟩
  ⟨by decide, by decide, by decide, by decide, by decide, by decide, by decide, hoff,
    (merge_associative exampleEnv exampleHeap txA txB txC
      (by decide) (by decide) (by decide) (by decide) (by decide) (by decide)
      (by decide) hoff).1⟩

/-! ## The bytes of a chunk -/

theorem slice_append_left (l r : Bytes) (a b : Nat) (hb : b ≤ l.length) :
    slice (l ++ r) a b = slice l a b := by
  unfold slice
  rw [List.take_append_of_le_length hb]

theorem slice_append_right (l r : Bytes) (a b : Nat) :
    slice (l ++ r) (l.length + a) (l.length + b) = slice r a b := by
  unfold slice
  rw [List.take_append, ← List.drop_drop, List.drop_left]

theorem post_chunks_loop_returned (env : Env) (heap : Heap) (t : Transaction)
    (chunks : List ChunkRef) :
    ∀ (i : Nat) (posted : List Payload), i + chunks.length ≤ t.chunks.proofs.length →
      post_chunks_loop env heap t i chunks posted =
        .returned (posted ++
          List.zipWith (payloadOf env heap t) chunks (t.chunks.proofs.drop i)) := by
  induction chunks with
  | nil =>
    intro i posted _
    simp [post_chunks_loop]
  | cons c cs ih =>
    intro i posted h
    have hi : i < t.chunks.proofs.length := by simp at h; omega
    have h' : i + 1 + cs.length ≤ t.chunks.proofs.length := by simp at h; omega
    rw [post_chunks_loop, List.getElem?_eq_getElem hi]
    simp only []
    rw [ih (i + 1) _ h', List.drop_eq_getElem_cons hi, List.zipWith_cons_cons,
      List.append_assoc]
    rfl

theorem zipWith_payloadOf_chunk (env : Env) (heap : Heap) (t : Transaction) :
    ∀ (cs : List ChunkRef) (ps : List Proof), cs.length ≤ ps.length →
      (List.zipWith (payloadOf env heap t) cs ps).map Payload.chunk =
        cs.map fun c => env.bufferTob64Url (chunk_data heap t c) := by
  intro cs
  induction cs with
  | nil => intro ps _; simp
  | cons c cs ih =>
    intro ps h
    cases ps with
    | nil => simp at h
    | cons q qs =>
      simp only [List.zipWith_cons_cons, List.map_cons, payloadOf, List.cons.injEq, true_and]
      exact ih qs (by simpa using h)

theorem chunk_data_rebaseResult_left (env : Env) (s : State) (left right : Transaction)
    (hr : right.chunks.chunks.length = right.chunks.proofs.length) (c : ChunkRef)
    (hc : c ∉ right.chunks.chunks) (hmax : (s.heap c).maxByteRange ≤ left.data.length) :
    chunk_data (rebaseResult env s left right).heap (rebaseResult env s left right).merged c =
      slice left.data (s.heap c).minByteRange (s.heap c).maxByteRange := by
  unfold chunk_data
  rw [rebaseResult_heap_apply env s left right hr]
  simp only [List.count_eq_zero.mpr hc, Nat.zero_mul, Nat.zero_add]
  exact slice_append_left _ _ _ _ hmax

theorem chunk_data_rebaseResult_right (env : Env) (s : State) (left right : Transaction)
    (hr : right.chunks.chunks.length = right.chunks.proofs.length) (c : ChunkRef)
    (hnd : right.chunks.chunks.Nodup) (hc : c ∈ right.chunks.chunks) :
    chunk_data (rebaseResult env s left right).heap (rebaseResult env s left right).merged c =
      slice right.data (s.heap c).minByteRange (s.heap c).maxByteRange := by
  unfold chunk_data
  rw [rebaseResult_heap_apply env s left right hr]
  simp only [List.count_eq_one_of_mem hnd hc, Nat.one_mul]
  exact slice_append_right _ _ _ _

/-- C19, as stated, fails when a chunk object occurs twice in the chunk list of
right.  The right tree `stateBB.merged` is the output of merging and rebasing
`txB` with itself: 8 bytes of data and the chunk object `2` twice, with the
range from 4 to 8, inside the buffer; the left tree is `txC`.  Afterwards chunk
1 of merged is that object, moved twice to the range from 10 to 14, and the
bytes sent for it are the single byte `9` at position 10 of the 11 bytes of
merged, not the bytes `6, 7, 8, 9` of the range from 4 to 8 of the right data. -/
theorem rebase_proofs_chunk_bytes_counterexample :
    (∀ c ∈ txC.chunks.chunks, (stateBB.heap c).minByteRange ≤ (stateBB.heap c).maxByteRange ∧
      (stateBB.heap c).maxByteRange ≤ txC.data.length) ∧
    (∀ c ∈ stateBB.merged.chunks.chunks,
      (stateBB.heap c).minByteRange ≤ (stateBB.heap c).maxByteRange ∧
      (stateBB.heap c).maxByteRange ≤ stateBB.merged.data.length) ∧
    (merge_and_rebase_merkle_trees exampleEnv txC stateBB.merged).chunks.chunks = [] ∧
    txC.chunks.chunks.length = 1 ∧
    stateBB.merged.chunks.chunks[0]? = some 2 ∧
    rangeOf stateBB.heap 2 = (4, 8) ∧
    slice stateBB.merged.data 4 8 = [6, 7, 8, 9] ∧
    (rebase_proofs exampleEnv
      { heap := stateBB.heap
        merged := merge_and_rebase_merkle_trees exampleEnv txC stateBB.merged }
      txC stateBB.merged).isReturned = true ∧
    (rebase_proofs exampleEnv
      { heap := stateBB.heap
        merged := merge_and_rebase_merkle_trees exampleEnv txC stateBB.merged }
      txC stateBB.merged).state.merged.chunks.chunks[1]? = some 2 ∧
    rangeOf (rebase_proofs exampleEnv
      { heap := stateBB.heap
        merged := merge_and_rebase_merkle_trees exampleEnv txC stateBB.merged }
      txC stateBB.merged).state.heap 2 = (10, 14) ∧
    chunk_data
      (rebase_proofs exampleEnv
        { heap := stateBB.heap
          merged := merge_and_rebase_merkle_trees exampleEnv txC stateBB.merged }
        txC stateBB.merged).state.heap
      (rebase_proofs exampleEnv
        { heap := stateBB.heap
          merged := merge_and_rebase_merkle_trees exampleEnv txC stateBB.merged }
        txC stateBB.merged).state.merged 2 = [9] := by
  decide

/-- C19, amended.  For left and right trees (chunk and proof lists of equal
length) such that the chunk objects of right are pairwise distinct and none of
them is a chunk object of left: if every chunk range of left and of right lies
within the data buffer of its tree and merged starts with an empty chunk list,
then `rebase_proofs` returns, and afterwards the bytes `chunk_data` of chunk `i`
of merged are the bytes of the left data in the range that left chunk `i` had,
the bytes of chunk `n_left + j` of merged are the bytes of the right data in the
range that right chunk `j` had, and `post_chunks` on merged returns, having
sent these bytes, encoded, in this order. -/
theorem rebase_proofs_chunk_bytes (env : Env) (heap : Heap)
    (merged left right : Transaction)
    (hl : left.chunks.chunks.length = left.chunks.proofs.length)
    (hr : right.chunks.chunks.length = right.chunks.proofs.length)
    (hm : merged.chunks.chunks = [])
    (hnd : right.chunks.chunks.Nodup)
    (hdis : ∀ c ∈ left.chunks.chunks, c ∉ right.chunks.chunks)
    (hin_left : ∀ c ∈ left.chunks.chunks,
      (heap c).minByteRange ≤ (heap c).maxByteRange ∧
      (heap c).maxByteRange ≤ left.data.length)
    (_hin_right : ∀ c ∈ right.chunks.chunks,
      (heap c).minByteRange ≤ (heap c).maxByteRange ∧
      (heap c).maxByteRange ≤ right.data.length) :
    ∃ s', rebase_proofs env { heap := heap, merged := merged } left right = .returned s' ∧
      (∀ i (hi : i < left.chunks.chunks.length),
        s'.merged.chunks.chunks[i]? = some left.chunks.chunks[i] ∧
        chunk_data s'.heap s'.merged left.chunks.chunks[i] =
          slice left.data (heap left.chunks.chunks[i]).minByteRange
            (heap left.chunks.chunks[i]).maxByteRange) ∧
      (∀ j (hj : j < right.chunks.chunks.length),
        s'.merged.chunks.chunks[left.chunks.chunks.length + j]? =
          some right.chunks.chunks[j] ∧
        chunk_data s'.heap s'.merged right.chunks.chunks[j] =
          slice right.data (heap right.chunks.chunks[j]).minByteRange
            (heap right.chunks.chunks[j]).maxByteRange) ∧
      ∃ posted, post_chunks env s'.heap s'.merged = .returned posted ∧
        posted.map Payload.chunk =
          (left.chunks.chunks.map fun c => env.bufferTob64Url
            (slice left.data (heap c).minByteRange (heap c).maxByteRange)) ++
          (right.chunks.chunks.map fun c => env.bufferTob64Url
            (slice right.data (heap c).minByteRange (heap c).maxByteRange)) := by
  have hch := rebaseResult_chunks env { heap := heap, merged := merged } left right hl hr
  rw [hm, List.nil_append] at hch
  have hpl : (rebaseResult env { heap := heap, merged := merged } left right).merged.chunks.chunks.length
      ≤ (rebaseResult env { heap := heap, merged := merged } left right).merged.chunks.proofs.length := by
    rw [hch]
    simp [rebaseResult, hl, hr]
  refine ⟨_, rebase_proofs_returned env _ left right (le_of_eq hl.symm) (le_of_eq hr.symm),
    ?_, ?_, ?_⟩
  · intro i hi
    refine ⟨?_, chunk_data_rebaseResult_left env _ left right hr _
      (hdis _ (List.getElem_mem _)) (hin_left _ (List.getElem_mem _)).2⟩
    rw [hch, List.getElem?_append_left hi, List.getElem?_eq_getElem hi]
  · intro j hj
    refine ⟨?_, chunk_data_rebaseResult_right env _ left right hr _ hnd (List.getElem_mem _)⟩
    rw [hch, List.getElem?_append_right (by simp)]
    simp [List.getElem?_eq_getElem hj]
  · refine ⟨_, post_chunks_loop_returned env _ _ _ 0 [] (by simpa using hpl), ?_⟩
    rw [List.nil_append, List.drop_zero, zipWith_payloadOf_chunk env _ _ _ _ hpl, hch,
      List.map_append]
    congr 1
    · apply List.map_congr_left
      intro c hc
      rw [chunk_data_rebaseResult_left env _ left right hr c (hdis c hc) (hin_left c hc).2]
    · apply List.map_congr_left
      intro c hc
      rw [chunk_data_rebaseResult_right env _ left right hr c hnd hc]

/-- Witness of C19 (amended): the example transactions `txA` and `txB`. -/
theorem rebase_proofs_chunk_bytes_witness :
    txA.chunks.chunks.length = txA.chunks.proofs.length ∧
    txB.chunks.chunks.length = txB.chunks.proofs.length ∧
    (merge_and_rebase_merkle_trees exampleEnv txA txB).chunks.chunks = [] ∧
    txB.chunks.chunks.Nodup ∧
    (∀ c ∈ txA.chunks.chunks, c ∉ txB.chunks.chunks) ∧
    (∀ c ∈ txA.chunks.chunks,
      (exampleHeap c).minByteRange ≤ (exampleHeap c).maxByteRange ∧
      (exampleHeap c).maxByteRange ≤ txA.data.length) ∧
    (∀ c ∈ txB.chunks.chunks,
      (exampleHeap c).minByteRange ≤ (exampleHeap c).maxByteRange ∧
      (exampleHeap c).maxByteRange ≤ txB.data.length) ∧
    ∃ s', rebase_proofs exampleEnv
        { heap := exampleHeap, merged := merge_and_rebase_merkle_trees exampleEnv txA txB }
        txA txB = .returned s' ∧
      ∀ j (hj : j < txB.chunks.chunks.length),
        s'.merged.chunks.chunks[txA.chunks.chunks.length + j]? = some txB.chunks.chunks[j] ∧
        chunk_data s'.heap s'.merged txB.chunks.chunks[j] =
          slice txB.data (exampleHeap txB.chunks.chunks[j]).minByteRange
            (exampleHeap txB.chunks.chunks[j]).maxByteRange :=
  ⟨by decide, by decide, by decide, by decide, by decide, by decide, by decide,
    (rebase_proofs_chunk_bytes exampleEnv exampleHeap
      (merge_and_rebase_merkle_trees exampleEnv txA txB) txA txB
      (by decide) (by decide) (by decide) (by decide) (by decide) (by decide) (by decide)).imp
      fun _ h => ⟨h.1, h.2.2.1⟩⟩

/-! ## Proof offsets stay inside the padded tree -/

/-- C20, as stated, fails above the safe integers: with `txMaxSafe`, of the size
`9007199254740991` and without leaves, as left tree and `txOne`, of the size
`1` with one proof of the offset `0`, as right tree, all proof offsets are
below the size of their tree; the rebased offset of the right proof is
`9007199254740992`, and the `data_size` of merged, the double sum
`9007199254740992 + 1`, is `9007199254740992` too: the offset is not below
it. -/
theorem rebased_offsets_bounds_counterexample :
    isDecimal txMaxSafe.data_size ∧ isDecimal txOne.data_size ∧
    txMaxSafe.chunks.proofs = [] ∧
    txOne.chunks.proofs.map (fun p => p.offset.map Dbl.mag) = [some 0] ∧
    0 < decimalValue txOne.data_size ∧
    (rebase_proofs exampleEnv
      { heap := exampleHeap
        merged := merge_and_rebase_merkle_trees exampleEnv txMaxSafe txOne }
      txMaxSafe txOne).isReturned = true ∧
    (rebase_proofs exampleEnv
      { heap := exampleHeap
        merged := merge_and_rebase_merkle_trees exampleEnv txMaxSafe txOne }
      txMaxSafe txOne).state.merged.chunks.proofs.map (fun p => p.offset.map Dbl.mag) =
        [some 9007199254740992] ∧
    (parseInt (rebase_proofs exampleEnv
      { heap := exampleHeap
        merged := merge_and_rebase_merkle_trees exampleEnv txMaxSafe txOne }
      txMaxSafe txOne).state.merged.data_size).map Dbl.mag = some 9007199254740992 := by
  decide

/-- C20, amended.  For left and right trees whose `data_size` fields are decimal
numerals `a` and `b` with `round_to_chunk_size a + b` a safe integer (below
`2^53`), whose chunk and proof lists have equal length, and whose proof offsets
are non-negative integers below the `data_size` of their tree: `rebase_proofs`
on the transaction returned by `merge_and_rebase_merkle_trees` returns; the
`data_size` of merged is `round_to_chunk_size a + b`; every rebased left proof
offset is below `round_to_chunk_size a`; every rebased right proof offset is at
least `round_to_chunk_size a`; and every proof offset of merged is below the
`data_size` of merged. -/
theorem rebased_offsets_bounds (env : Env) (heap : Heap) (left right : Transaction)
    (hl : left.chunks.chunks.length = left.chunks.proofs.length)
    (hr : right.chunks.chunks.length = right.chunks.proofs.length)
    (dl : isDecimal left.data_size) (dr : isDecimal right.data_size)
    (hsafe : round_to_chunk_size (decimalValue left.data_size) +
      decimalValue right.data_size < 9007199254740992)
    (hlo : ∀ p ∈ left.chunks.proofs,
      ∃ o, p.offset = some (Dbl.ofNat o) ∧ o < decimalValue left.data_size)
    (hro : ∀ p ∈ right.chunks.proofs,
      ∃ o, p.offset = some (Dbl.ofNat o) ∧ o < decimalValue right.data_size) :
    ∃ s', rebase_proofs env
        { heap := heap, merged := merge_and_rebase_merkle_trees env left right }
        left right = .returned s' ∧
      parseInt s'.merged.data_size =
        some (Dbl.ofNat (round_to_chunk_size (decimalValue left.data_size) +
          decimalValue right.data_size)) ∧
      (∀ i (_hi : i < left.chunks.proofs.length), ∃ o,
        s'.merged.chunks.proofs[i]?.map Proof.offset = some (some (Dbl.ofNat o)) ∧
        o < round_to_chunk_size (decimalValue left.data_size)) ∧
      (∀ j (_hj : j < right.chunks.proofs.length), ∃ o,
        s'.merged.chunks.proofs[left.chunks.proofs.length + j]?.map Proof.offset =
          some (some (Dbl.ofNat o)) ∧
        round_to_chunk_size (decimalValue left.data_size) ≤ o ∧
        o < round_to_chunk_size (decimalValue left.data_size) +
          decimalValue right.data_size) ∧
      (∀ q ∈ s'.merged.chunks.proofs, ∃ o, q.offset = some (Dbl.ofNat o) ∧
        o < round_to_chunk_size (decimalValue left.data_size) +
          decimalValue right.data_size) := by
  have pl := parseInt_of_isDecimal _ dl
  have pr := parseInt_of_isDecimal _ dr
  have hge := le_round_to_chunk_size (decimalValue left.data_size)
  have bl : decimalValue left.data_size < 9007199254740992 := by omega
  have hproofs : (rebaseResult env
      { heap := heap, merged := merge_and_rebase_merkle_trees env left right }
      left right).merged.chunks.proofs =
      left.chunks.proofs.map (rebasedProof env left.chunks.data_root right.chunks.data_root
        (parseInt left.data_size) (some 0)) ++
      right.chunks.proofs.map (rebasedProof env left.chunks.data_root right.chunks.data_root
        (parseInt left.data_size) (roundNum (parseInt left.data_size))) := by
    simp [rebaseResult, merge_and_rebase_merkle_trees]
  have hright : ∀ (p : Proof) (o : Nat), p.offset = some (Dbl.ofNat o) →
      o < decimalValue right.data_size →
      (rebasedProof env left.chunks.data_root right.chunks.data_root
        (parseInt left.data_size) (roundNum (parseInt left.data_size)) p).offset =
        some (Dbl.ofNat (round_to_chunk_size (decimalValue left.data_size) + o)) := by
    intro p o ho hlt
    simp only [rebasedProof, pl, roundNum_ofNat _ bl, ho]
    exact Num.add_ofNat _ _ (by omega)
  refine ⟨_, rebase_proofs_returned env _ left right (le_of_eq hl.symm) (le_of_eq hr.symm),
    ?_, ?_, ?_, ?_⟩
  · have : (rebaseResult env
        { heap := heap, merged := merge_and_rebase_merkle_trees env left right }
        left right).merged.data_size
        = (merge_and_rebase_merkle_trees env left right).data_size := rfl
    rw [this, merge_data_size_eq env left right _ _ pl pr hsafe]
    exact parseInt_numToString _ hsafe
  · intro i hi
    obtain ⟨o, ho, hlt⟩ := hlo _ (List.getElem_mem hi)
    refine ⟨o, ?_, by omega⟩
    rw [hproofs, List.getElem?_append_left (by simpa using hi)]
    simp [List.getElem?_eq_getElem hi, rebasedProof_offset_zero, ho]
  · intro j hj
    obtain ⟨o, ho, hlt⟩ := hro _ (List.getElem_mem hj)
    refine ⟨round_to_chunk_size (decimalValue left.data_size) + o, ?_, by omega, by omega⟩
    rw [hproofs, List.getElem?_append_right (by simp)]
    simp [List.getElem?_eq_getElem hj, hright _ o ho hlt]
  · intro q hq
    rw [hproofs, List.mem_append] at hq
    rcases hq with hq | hq
    · obtain ⟨p, hp, rfl⟩ := List.mem_map.mp hq
      obtain ⟨o, ho, hlt⟩ := hlo p hp
      exact ⟨o, by simp [rebasedProof_offset_zero, ho], by omega⟩
    · obtain ⟨p, hp, rfl⟩ := List.mem_map.mp hq
      obtain ⟨o, ho, hlt⟩ := hro p hp
      exact ⟨round_to_chunk_size (decimalValue left.data_size) + o,
        hright p o ho hlt, by omega⟩

/-- Witness of C20 (amended): the script's files of 474000 and 120000 bytes, with
the proof offsets 262143, 473999 and 119999. -/
theorem rebased_offsets_bounds_witness :
    transaction1.chunks.chunks.length = transaction1.chunks.proofs.length ∧
    transaction2.chunks.chunks.length = transaction2.chunks.proofs.length ∧
    isDecimal transaction1.data_size ∧ isDecimal transaction2.data_size ∧
    round_to_chunk_size (decimalValue transaction1.data_size) +
      decimalValue transaction2.data_size < 9007199254740992 ∧
    (∀ p ∈ transaction1.chunks.proofs,
      ∃ o, p.offset = some (Dbl.ofNat o) ∧ o < decimalValue transaction1.data_size) ∧
    (∀ p ∈ transaction2.chunks.proofs,
      ∃ o, p.offset = some (Dbl.ofNat o) ∧ o < decimalValue transaction2.data_size) ∧
    ∃ s', rebase_proofs exampleEnv
        { heap := scriptHeap
          merged := merge_and_rebase_merkle_trees exampleEnv transaction1 transaction2 }
        transaction1 transaction2 = .returned s' ∧
      parseInt s'.merged.data_size =
        some (Dbl.ofNat (round_to_chunk_size (decimalValue transaction1.data_size) +
          decimalValue transaction2.data_size)) ∧
      ∀ q ∈ s'.merged.chunks.proofs, ∃ o, q.offset = some (Dbl.ofNat o) ∧
        o < round_to_chunk_size (decimalValue transaction1.data_size) +
          decimalValue transaction2.data_size :=
  have h1 : ∀ p ∈ transaction1.chunks.proofs,
      ∃ o, p.offset = some (Dbl.ofNat o) ∧ o < decimalValue transaction1.data_size := by
    intro p hp
    simp only [transaction1, List.mem_cons, List.mem_singleton, List.not_mem_nil, or_false] at hp
    rcases hp with rfl | rfl
    · exact ⟨262143, rfl, by decide⟩
    · exact ⟨473999, rfl, by decide⟩
  have h2 : ∀ p ∈ transaction2.chunks.proofs,
      ∃ o, p.offset = some (Dbl.ofNat o) ∧ o < decimalValue transaction2.data_size := by
    intro p hp
    simp only [transaction2, List.mem_cons, List.mem_singleton, List.not_mem_nil, or_false] at hp
    subst hp
    exact ⟨119999, rfl, by decide⟩
  ⟨by decide, by decide, by decide, by decide, by decide, h1, h2,
    (rebased_offsets_bounds exampleEnv scriptHeap transaction1 transaction2
      (by decide) (by decide) (by decide) (by decide) (by decide) h1 h2).imp
      fun _ h => ⟨h.1, h.2.1, h.2.2.2.2⟩⟩

end RebasedMerkleTree
